import Mathlib

/-!
Verification of the lecture-summarization backend.

Strings are modelled as `List Char` (`Str`). Python regular-expression
operations used by the code are embedded as explicit character scanners
with the same matching semantics on the relevant alphabet. Python floats
are modelled as exact rationals (`ℚ`); the numeric claims checked here
involve only values on which float and rational arithmetic agree.
-/

set_option maxRecDepth 40000

abbrev Str := List Char

/-- The apostrophe character. -/
def apos : Char := Char.ofNat 39

/-- Python `\s` for the ASCII range: space, tab, newline, carriage return,
vertical tab, form feed. -/
def isPySpace (c : Char) : Bool :=
  c == ' ' || c == '\t' || c == '\n' || c == '\r' || c == Char.ofNat 11 || c == Char.ofNat 12

/-- Python `\w` (ASCII): letters, digits, underscore. -/
def isWordChar (c : Char) : Bool :=
  c.isAlpha || c.isDigit || c == '_'

/-- Python `str.lstrip()` (whitespace). -/
def pyLStrip (l : Str) : Str := l.dropWhile isPySpace

/-- Python `str.rstrip()` (whitespace). -/
def pyRStrip (l : Str) : Str := (l.reverse.dropWhile isPySpace).reverse

/-- Python `str.strip()` (whitespace). -/
def pyStrip (l : Str) : Str := pyRStrip (pyLStrip l)

/-- Strip a given set of characters from both ends: Python `str.strip(chars)`. -/
def pyStripChars (chars : Str) (l : Str) : Str :=
  ((l.dropWhile (· ∈ chars)).reverse.dropWhile (· ∈ chars)).reverse

/-- Scanner for `re.sub(r"\s+", " ", ·)`: the flag records whether the
previous consumed character was whitespace (i.e. we are inside a run). -/
def collapseWsGo : Bool → Str → Str
  | _, [] => []
  | prevWs, c :: rest =>
    if isPySpace c then
      if prevWs then collapseWsGo true rest else ' ' :: collapseWsGo true rest
    else c :: collapseWsGo false rest

/-- `re.sub(r"\s+", " ", l)`: every maximal whitespace run becomes one space. -/
def collapseWs (l : Str) : Str := collapseWsGo false l

/-- Python `str.lower()` on the ASCII range. -/
def lowerStr (l : Str) : Str := l.map Char.toLower

/-- Python slicing `l[i:]` with possibly negative `i`. -/
def pySliceFrom (i : Int) (l : Str) : Str :=
  if i ≥ 0 then l.drop i.toNat
  else l.drop (((l.length : Int) + i).toNat)

/-- Python slicing `l[-k:]` for `k > 0`: the last `min k len` characters. -/
def pyLastChars (k : Nat) (l : Str) : Str := l.drop (l.length - k)

/-- Decimal digits of a natural number. -/
def natToStr (n : Nat) : Str := Nat.toDigits 10 n

/-- Python `str(int)`. -/
def intToStr (i : Int) : Str :=
  if i < 0 then '-' :: natToStr i.natAbs else natToStr i.toNat

/-- Boundary test for `\b` at the start of a match whose first char is a
word char: the previous char (if any) must not be a word char. -/
def atBoundary (prevWord : Bool) : Bool := !prevWord

/-- `\b` at the end of a match whose last char is a word char: the next
char (if any) must not be a word char. -/
def endBoundary : Str → Bool
  | [] => true
  | c :: _ => !isWordChar c

/-- Attempt to match `\d{1,2}:\d{2}(?::\d{2})?\b` at the head of `l`
(the leading `\b` has been checked by the caller). Returns the number of
characters consumed; greedy with regex backtracking order: two leading
digits before one, extended `:\d{2}` before the short form. -/
def tryTimestamp (l : Str) : Option Nat :=
  match l with
  | d1 :: d2 :: ':' :: d3 :: d4 :: rest =>
    if d1.isDigit && d2.isDigit && d3.isDigit && d4.isDigit then
      match rest with
      | ':' :: d5 :: d6 :: rest2 =>
        if d5.isDigit && d6.isDigit && endBoundary rest2 then some 8
        else if endBoundary rest then some 5
        else tryTimestampOne l
      | _ => if endBoundary rest then some 5 else tryTimestampOne l
    else tryTimestampOne l
  | _ => tryTimestampOne l
where
  /-- The one-leading-digit alternative `\d:\d{2}(?::\d{2})?\b`. -/
  tryTimestampOne : Str → Option Nat
  | d1 :: ':' :: d3 :: d4 :: rest =>
    if d1.isDigit && d3.isDigit && d4.isDigit then
      match rest with
      | ':' :: d5 :: d6 :: rest2 =>
        if d5.isDigit && d6.isDigit && endBoundary rest2 then some 7
        else if endBoundary rest then some 4
        else none
      | _ => if endBoundary rest then some 4 else none
    else none
  | _ => none

/-- Scanner for `re.sub(r"\b\d{1,2}:\d{2}(?::\d{2})?\b", " ", ·)`.
`fuel` bounds the scan (callers pass the length); `prevWord` tracks
whether the previous original character was a word character. -/
def subTimestampsGo : Nat → Bool → Str → Str
  | 0, _, l => l
  | _ + 1, _, [] => []
  | fuel + 1, prevWord, c :: rest =>
    if c.isDigit && atBoundary prevWord then
      match tryTimestamp (c :: rest) with
      | some k => ' ' :: subTimestampsGo fuel true (List.drop (k - 1) rest)
      | none => c :: subTimestampsGo fuel (isWordChar c) rest
    else c :: subTimestampsGo fuel (isWordChar c) rest

def subTimestamps (l : Str) : Str := subTimestampsGo l.length false l

/-- Attempt to match `\[[^\]]{1,40}\]` at the head: the char after the
opening bracket up to the closing one, between 1 and 40 non-`]` chars.
Returns the consumed count. -/
def tryBracket (close : Char) (l : Str) : Option Nat :=
  let run := l.takeWhile (· ≠ close)
  if run.length ≥ 1 && run.length ≤ 40 && l.length > run.length then
    some (run.length + 2)
  else none

/-- Scanner for `re.sub(r"\[[^\]]{1,40}\]", " ", ·)`. -/
def subBracketsGo (openC close : Char) : Nat → Str → Str
  | 0, l => l
  | _ + 1, [] => []
  | fuel + 1, c :: rest =>
    if c = openC then
      match tryBracket close rest with
      | some k => ' ' :: subBracketsGo openC close fuel (List.drop (k - 1) rest)
      | none => c :: subBracketsGo openC close fuel rest
    else c :: subBracketsGo openC close fuel rest

def subBrackets (l : Str) : Str := subBracketsGo '[' ']' l.length l

def subParens (l : Str) : Str := subBracketsGo '(' ')' l.length l

/-- Char class `[A-Z\s]` of the speaker-label pattern. -/
def isUpperOrSpace (c : Char) : Bool := c.isUpper || isPySpace c

/-- Attempt to match `[A-Z][A-Z\s]{2,20}:\s*` at the head of `l` (the
`(?m)^` anchor has been checked by the caller). Greedy on the class run
with backtracking down to 2, then greedy `\s*`. Returns consumed count. -/
def trySpeaker (l : Str) : Option Nat :=
  match l with
  | c :: rest =>
    if c.isUpper then
      let maxRun := min 20 (rest.takeWhile isUpperOrSpace).length
      match speakerSearch rest maxRun with
      | some k =>
        let tail := List.drop (k + 1) rest
        some (1 + k + 1 + (tail.takeWhile isPySpace).length)
      | none => none
    else none
  | [] => none
where
  /-- Find the largest `k ∈ [2, maxRun]` with `rest[k] = ':'`. -/
  speakerSearch (rest : Str) : Nat → Option Nat
  | 0 => none
  | k + 1 =>
    if k + 1 < 2 then none
    else if rest.getD (k + 1) ' ' = ':' then some (k + 1)
    else speakerSearch rest k

/-- Scanner for `re.sub(r"(?m)^[A-Z][A-Z\s]{2,20}:\s*", "", ·)`:
`atLineStart` is true at the string start and right after a newline. -/
def subSpeakerGo : Nat → Bool → Str → Str
  | 0, _, l => l
  | _ + 1, _, [] => []
  | fuel + 1, atLineStart, c :: rest =>
    if atLineStart && c.isUpper then
      match trySpeaker (c :: rest) with
      | some k =>
        let consumed := List.take k (c :: rest)
        subSpeakerGo fuel (consumed.getLastD ' ' = '\n') (List.drop (k - 1) rest)
      | none => c :: subSpeakerGo fuel (c = '\n') rest
    else c :: subSpeakerGo fuel (c = '\n') rest

def subSpeaker (l : Str) : Str := subSpeakerGo l.length true l

/-- The truncation marker appended by `clean_transcript_text`. -/
def truncMarker : Str := " [Transcript truncated]".data

/-- `clean_transcript_text(text, max_chars)` from `pipeline_utils.py`. -/
def cleanTranscriptText (maxChars : Nat) (text : Str) : Str :=
  let value := pyStrip text
  if value = [] then []
  else
    let v1 := subTimestamps value
    let v2 := subBrackets v1
    let v3 := subParens v2
    let v4 := subSpeaker v3
    let v5 := pyStrip (collapseWs v4)
    if v5.length > maxChars then v5.take maxChars ++ truncMarker else v5

/-- Whether the previous character triggers the `(?<=[.!?])` lookbehind. -/
def isSentEnd (c : Char) : Bool := c == '.' || c == '!' || c == '?'

/-- Scanner for `re.split(r"(?<=[.!?])\s+|\n+", ·)`: `prev` is the
previous original character, `cur` the current piece (reversed). -/
def splitSentRawGo : Nat → Option Char → Str → Str → List Str
  | 0, _, cur, l => [cur.reverse ++ l]
  | _ + 1, _, cur, [] => [cur.reverse]
  | fuel + 1, prev, cur, c :: rest =>
    if (match prev with | some p => isSentEnd p | none => false) && isPySpace c then
      let run := rest.takeWhile isPySpace
      cur.reverse :: splitSentRawGo fuel (some ' ') [] (rest.drop run.length)
    else if c = '\n' then
      let run := rest.takeWhile (· = '\n')
      cur.reverse :: splitSentRawGo fuel (some '\n') [] (rest.drop run.length)
    else
      splitSentRawGo fuel (some c) (c :: cur) rest

def splitSentRaw (l : Str) : List Str := splitSentRawGo l.length none [] l

/-- `split_sentences` from `pipeline_utils.py`. -/
def splitSentences (l : Str) : List Str :=
  ((splitSentRaw l).map (fun chunk => pyStrip (collapseWs chunk))).filter
    (fun item => item.length ≥ 18)

/-- Scanner for `re.split(r"\n{2,}", ·)`: runs of at least two newlines
are separators. -/
def splitBlankGo : Nat → Str → Str → List Str
  | 0, cur, l => [cur.reverse ++ l]
  | _ + 1, cur, [] => [cur.reverse]
  | fuel + 1, cur, c :: rest =>
    if c = '\n' then
      let run := rest.takeWhile (· = '\n')
      if run.length ≥ 1 then
        cur.reverse :: splitBlankGo fuel [] (rest.drop run.length)
      else splitBlankGo fuel (c :: cur) rest
    else splitBlankGo fuel (c :: cur) rest

def splitBlank (l : Str) : List Str := splitBlankGo l.length [] l

/-- Char class `[A-Za-z0-9'-]` of the word-token pattern. -/
def isTokTail (c : Char) : Bool := c.isAlpha || c.isDigit || c == apos || c == '-'

/-- Scanner for `re.findall(r"[A-Za-z][A-Za-z0-9'-]{2,}", ·)` (applied to
the lowercased text by `tokenize_words`). -/
def findTokensGo : Nat → Str → List Str
  | 0, _ => []
  | _ + 1, [] => []
  | fuel + 1, c :: rest =>
    if c.isAlpha then
      let run := rest.takeWhile isTokTail
      if run.length ≥ 2 then
        (c :: run) :: findTokensGo fuel (rest.drop run.length)
      else findTokensGo fuel rest
    else findTokensGo fuel rest

/-- `tokenize_words` from `pipeline_utils.py`. -/
def tokenizeWords (l : Str) : List Str := findTokensGo l.length (lowerStr l)

/-- The STOPWORDS set of `pipeline_utils.py`. -/
def STOPWORDS : List Str :=
  ["a", "an", "and", "are", "as", "at", "be", "been", "being", "by", "for",
   "from", "has", "have", "in", "into", "is", "it", "its", "of", "on", "or",
   "that", "the", "their", "there", "this", "to", "was", "were", "with",
   "you", "your", "we", "they", "them", "our", "can", "could", "would",
   "should", "may", "might", "not", "than", "then", "also", "about", "such",
   "using", "used", "use", "what", "when", "where", "which", "who", "why",
   "how", "if", "while", "during", "before", "after", "over",
   "under"].map String.data

/-- `dedupe_strings` from `pipeline_utils.py`: whitespace-normalize each
item, drop empties, and keep the first occurrence of each lowercase key. -/
def dedupeStringsGo (seen : List Str) : List Str → List Str
  | [] => []
  | x :: xs =>
    let value := pyStrip (collapseWs x)
    if value = [] then dedupeStringsGo seen xs
    else
      let key := lowerStr value
      if key ∈ seen then dedupeStringsGo seen xs
      else value :: dedupeStringsGo (key :: seen) xs

def dedupeStrings (items : List Str) : List Str := dedupeStringsGo [] items

/-- `rsplit(" ", 1)[0]`: everything before the last space, or the whole
string when it has no space. -/
def cutAtLastSpace (l : Str) : Str :=
  if ' ' ∈ l then ((l.reverse.dropWhile (· ≠ ' ')).drop 1).reverse else l

/-- `_shorten` (shared by `pipeline_utils.py` and `local_ai_service.py`):
whitespace-normalize, and when longer than `maxChars` cut the first
`maxChars` characters back to the last space and append an ellipsis. -/
def shorten (maxChars : Nat) (text : Str) : Str :=
  let value := pyStrip (collapseWs text)
  if value.length ≤ maxChars then value
  else cutAtLastSpace (value.take maxChars) ++ "...".data

/-- The generic filler appended by `_ensure_item_range` for a field
`label` when fewer than `min_items` items survive; `idx` is the length of
the list right before this filler is appended. -/
def fillerItem (label : Str) (idx : Nat) : Str :=
  label ++ [' '] ++ natToStr (idx + 1) ++ ": Revise this idea and connect it to the lecture theme.".data

/-- `_ensure_item_range` from `pipeline_utils.py`: dedupe, drop items
whose stripped length is at most 8, truncate to 180, cap at `maxItems`,
pad with fillers up to `minItems`. The Python `while` appends one filler
at a time, indexed by the running length, which is the closed form below. -/
def ensureItemRange (label : Str) (minItems maxItems : Nat) (items : List Str) : List Str :=
  let normalized := dedupeStrings items
  let kept := (normalized.filter (fun item => (pyStrip item).length > 8)).map (shorten 180)
  let capped := kept.take maxItems
  capped ++ (List.range (minItems - capped.length)).map (fun j => fillerItem label (capped.length + j))

/-- One paragraph accumulation step of `split_into_chunks`; returns the
final chunk list (a `none` current buffer encodes Python's `break`, after
which the trailing-buffer append is skipped because the cap is reached). -/
def chunkLoop (maxChars overlapChars maxChunks : Nat) :
    List Str → List Str → Str → List Str
  | [], chunks, current =>
    if current ≠ [] && chunks.length < maxChunks then chunks ++ [pyStrip current]
    else chunks
  | part :: parts, chunks, current =>
    let candidate := if current ≠ [] then pyStrip (current ++ '\n' :: part) else part
    if candidate.length ≤ maxChars then
      chunkLoop maxChars overlapChars maxChunks parts chunks candidate
    else if current ≠ [] then
      let chunks' := chunks ++ [pyStrip current]
      if chunks'.length ≥ maxChunks then chunks'
      else
        let overlap := if overlapChars > 0 then pyLastChars overlapChars current else []
        chunkLoop maxChars overlapChars maxChunks parts chunks' (pyStrip (overlap ++ '\n' :: part))
    else
      let chunks' := chunks ++ [pyStrip (part.take maxChars)]
      if chunks'.length ≥ maxChunks then chunks'
      else
        chunkLoop maxChars overlapChars maxChunks parts chunks'
          (pyStrip (pySliceFrom ((maxChars : Int) - (overlapChars : Int)) part))

/-- `split_into_chunks` from `pipeline_utils.py`. -/
def splitIntoChunks (maxChars overlapChars maxChunks : Nat) (text : Str) : List Str :=
  let cleaned := cleanTranscriptText 120000 text
  if cleaned = [] then []
  else
    let paragraphs0 := ((splitBlank cleaned).map pyStrip).filter (· ≠ [])
    let paragraphs := if paragraphs0 = [] then splitSentences cleaned else paragraphs0
    (chunkLoop maxChars overlapChars maxChunks paragraphs [] []).filter (· ≠ [])

/-- Tokens of a text with stopwords removed, as used by the retriever. -/
def contentTokens (l : Str) : List Str :=
  (tokenizeWords l).filter (fun t => t ∉ STOPWORDS)

/-- Count of occurrences of `t` in `tokens` (Python `Counter`). -/
def tokCount (tokens : List Str) (t : Str) : Nat := tokens.countP (fun x => x = t)

/-- Exact rational arithmetic for modelling Python floats, with a
kernel-computable representation: an unreduced fraction with positive
denominator. Comparisons are by value (cross multiplication), matching
Python float comparison; every operation below is structural so that
concrete claims evaluate inside the kernel. -/
structure PyQ where
  num : Int
  den : Nat
deriving DecidableEq

def PyQ.ofNat (n : Nat) : PyQ := ⟨n, 1⟩

def PyQ.ofInt (i : Int) : PyQ := ⟨i, 1⟩

def PyQ.zero : PyQ := ⟨0, 1⟩

def PyQ.add (a b : PyQ) : PyQ := ⟨a.num * b.den + b.num * a.den, a.den * b.den⟩

def PyQ.sub (a b : PyQ) : PyQ := ⟨a.num * b.den - b.num * a.den, a.den * b.den⟩

def PyQ.mul (a b : PyQ) : PyQ := ⟨a.num * b.num, a.den * b.den⟩

def PyQ.neg (a : PyQ) : PyQ := ⟨-a.num, a.den⟩

def PyQ.abs (a : PyQ) : PyQ := ⟨a.num.natAbs, a.den⟩

def PyQ.isZero (a : PyQ) : Bool := a.num = 0

/-- Division (caller guards against a zero divisor). -/
def PyQ.div (a b : PyQ) : PyQ :=
  if b.num < 0 then ⟨-(a.num * b.den), a.den * b.num.natAbs⟩
  else ⟨a.num * b.den, a.den * b.num.natAbs⟩

/-- Value equality. -/
def PyQ.eqv (a b : PyQ) : Bool := a.num * b.den = b.num * a.den

/-- Value order (denominators are positive by construction). -/
def PyQ.lt (a b : PyQ) : Bool := a.num * b.den < b.num * a.den

def PyQ.le (a b : PyQ) : Bool := a.num * b.den ≤ b.num * a.den

/-- Floor to an integer (`Int.fdiv` is floor division). -/
def PyQ.floor (a : PyQ) : Int := a.num.fdiv a.den

/-- Whether the value is an integer. -/
def PyQ.isInt (a : PyQ) : Bool := a.num.emod a.den = 0

/-- The integer value (meaningful when `isInt`). -/
def PyQ.toInt (a : PyQ) : Int := a.num.fdiv a.den

/-- Integer power with Python `**` semantics on the guarded path:
negative exponents invert (the caller rejects a zero base). -/
def PyQ.zpow (a : PyQ) (e : Int) : PyQ :=
  if e < 0 then
    let p : PyQ := ⟨a.num ^ e.natAbs, a.den ^ e.natAbs⟩
    PyQ.div ⟨1, 1⟩ p
  else ⟨a.num ^ e.toNat, a.den ^ e.toNat⟩

/-- Lexical score of a chunk against the query in
`select_top_chunks_for_query`: clipped term-frequency overlap over the
distinct common tokens, minus the length penalty `0.00015 * max 0 (len - 1100)`.
Python computes the penalty in floating point; it is modelled exactly as
the rational `3 / 20000`. -/
def chunkScore (queryTokens : List Str) (chunk : Str) : PyQ :=
  let chunkTokens := contentTokens chunk
  let overlapKeys := (queryTokens.dedup).filter (fun t => t ∈ chunkTokens)
  let lexical := PyQ.ofNat ((overlapKeys.map
    (fun t => min (tokCount queryTokens t) (tokCount chunkTokens t))).sum)
  let penalty := PyQ.mul ⟨3, 20000⟩ (PyQ.ofNat (chunk.length - 1100))
  lexical.sub penalty

/-- Stable insertion (descending by score): a later element is placed
after existing elements with an equal or larger score, matching the
stability of Python's `list.sort(key=..., reverse=True)`. -/
def insertDesc (x : PyQ × Str) : List (PyQ × Str) → List (PyQ × Str)
  | [] => [x]
  | y :: ys => if PyQ.le x.1 y.1 then y :: insertDesc x ys else x :: y :: ys

def sortDesc (l : List (PyQ × Str)) : List (PyQ × Str) := l.foldl (fun acc x => insertDesc x acc) []

/-- The scored-chunk list built by `select_top_chunks_for_query`: chunks
with no surviving tokens are skipped, and only positive scores enter. -/
def rankedChunks (queryTokens : List Str) (chunks : List Str) : List (PyQ × Str) :=
  chunks.filterMap (fun chunk =>
    if contentTokens chunk = [] then none
    else
      let score := chunkScore queryTokens chunk
      if PyQ.lt PyQ.zero score then some (score, chunk) else none)

/-- `select_top_chunks_for_query` from `pipeline_utils.py`. -/
def selectTopChunksForQuery (query : Str) (chunks : List Str) (topK : Nat) : List Str :=
  if chunks = [] then []
  else
    let queryTokens := contentTokens query
    if queryTokens = [] then chunks.take topK
    else
      let ranked := rankedChunks queryTokens chunks
      if ranked = [] then chunks.take topK
      else ((sortDesc ranked).take topK).map (·.2)

/-- The `StructuredSummary` pydantic model. -/
structure StructuredSummaryL where
  overview_paragraphs : List Str
  key_definitions : List Str
  core_concepts : List Str
  important_examples : List Str
  exam_revision_points : List Str
deriving DecidableEq, Inhabited

/-- `" ".join(l)`. -/
def joinSpace (l : List Str) : Str := List.intercalate [' '] l

/-- `pick_unique` inside `build_three_paragraph_overview`: walk the pool,
skipping sentences whose lowercase key is used, until `target` are picked;
returns the picked sentences and the grown used-set. -/
def pickUniqueGo (target : Nat) (used picked : List Str) : List Str → List Str × List Str
  | [] => (picked.reverse, used)
  | s :: rest =>
    let key := lowerStr s
    if key ∈ used then pickUniqueGo target used picked rest
    else
      let picked' := s :: picked
      if picked'.length ≥ target then (picked'.reverse, key :: used)
      else pickUniqueGo target (key :: used) picked' rest

def pickUnique (pool used : List Str) (target : Nat) : List Str × List Str :=
  pickUniqueGo target used [] pool

/-- `sentence_score` of `build_three_paragraph_overview`: summed corpus
frequency over the sentence's distinct non-stopword tokens. -/
def sentenceScore (srcTokens : List Str) (sentence : Str) : Nat :=
  (((contentTokens sentence).dedup).map (tokCount srcTokens)).sum

/-- The default seed used when no concepts are available. -/
def defaultSeedText : Str := "this lecture presents core academic ideas and applications".data

/-- The three template paragraphs returned when the source has no
sentences, seeded from up to three concepts. -/
def templateParagraphs (seed : List Str) : List Str :=
  let s0 := seed.getD 0 []
  let s1 := if seed.length > 1 then seed.getD 1 [] else s0
  let s2 := if seed.length > 2 then seed.getD 2 [] else s0
  [ "This lecture introduces the topic framework and sets foundational context for understanding the subject scope, with early emphasis on ".data ++ s0 ++ ".".data,
    "The middle portion expands the theory through method-level reasoning and conceptual links, especially around ".data ++ s1 ++ " and related principles.".data,
    "For exam preparation, connect definitions, reasoning steps, and applications into a coherent answer structure, focusing on ".data ++ s2 ++ ".".data ]

/-- The fixed connective closings appended to the three paragraphs
(leading space included, as in the source). The first one contains an
apostrophe, written via `apos`. -/
def closing1 : Str :=
  " Together, these points establish the lecture".data ++ [apos] ++
    "s foundational ideas and clarify the conceptual baseline for further study.".data

def closing2 : Str :=
  " This section also clarifies how methods, assumptions, and interpretation steps interact in practice, which is critical for accurate exam responses.".data

def closing3 : Str :=
  " For revision, prioritize definition clarity, method explanation, and application-focused reasoning so answers remain factual, structured, and exam-ready.".data

/-- The templated padding paragraph appended while fewer than 3
paragraphs exist, referencing the next unused concept. -/
def overviewPadText (fallbackIndex : Nat) (conceptsClean : List Str) : Str :=
  let concept :=
    if conceptsClean.length ≥ fallbackIndex then conceptsClean.getD (fallbackIndex - 1) []
    else "core lecture ideas".data
  "The lecture can be revised effectively by linking theory to example-driven explanation. Paragraph ".data
    ++ natToStr fallbackIndex ++ " focus: ".data ++ concept ++ ".".data

/-- `build_three_paragraph_overview` from `pipeline_utils.py`. -/
def buildThreeParagraphOverview (sourceText : Str) (concepts : List Str) : List Str :=
  let sentences := dedupeStrings (splitSentences sourceText)
  let conceptsClean := dedupeStrings concepts
  if sentences = [] then
    let seed := if conceptsClean.take 4 = [] then [defaultSeedText] else conceptsClean.take 4
    templateParagraphs seed
  else
    let srcTokens := contentTokens sourceText
    let rankedSentences :=
      ((sortDesc (sentences.map (fun s => (PyQ.ofNat (sentenceScore srcTokens s), s)))).map (·.2))
    let topSentences := dedupeStrings (rankedSentences.take 15)
    let introPool := topSentences.take 6
    let deepDivePool := (topSentences.drop 3).take 9
    let evidencePool :=
      if topSentences.length > 8 then (topSentences.drop 8).take 7 else topSentences.drop 4
    let r1 := pickUnique introPool [] 3
    let r2 := pickUnique deepDivePool r1.2 3
    let r3 := pickUnique evidencePool r2.2 2
    let e2 :=
      if r2.1.length < 2 then
        let ext := pickUnique topSentences r3.2 (2 - r2.1.length)
        (r2.1 ++ ext.1, ext.2)
      else (r2.1, r3.2)
    let e3 :=
      if r3.1.length < 2 then
        let ext := pickUnique topSentences e2.2 (2 - r3.1.length)
        (r3.1 ++ ext.1, ext.2)
      else (r3.1, e2.2)
    let j1 := pyStrip (joinSpace r1.1)
    let para1 := if j1 ≠ [] then j1 ++ closing1 else []
    let j2 := pyStrip (joinSpace e2.1)
    let para2 := if j2 ≠ [] then j2 ++ closing2 else []
    let j3 := pyStrip (joinSpace e3.1)
    let para3 := if j3 ≠ [] then j3 ++ closing3 else []
    let paras0 := ([para1, para2, para3].filter (fun p => pyStrip p ≠ [])).map (shorten 620)
    let paras1 := dedupeStrings paras0
    let padded := paras1 ++ (List.range (3 - paras1.length)).map
      (fun j => shorten 620 (overviewPadText (paras1.length + j + 1) conceptsClean))
    padded.take 3

/-- The `for paragraph in generated` body of the overview repair loop in
`validate_structured_summary`: append case-insensitively new paragraphs
until 3 are present. -/
def appendNonDups (ov : List Str) : List Str → List Str
  | [] => ov
  | p :: ps =>
    if ov.length ≥ 3 then ov
    else if lowerStr p ∈ ov.map lowerStr then appendNonDups ov ps
    else appendNonDups (ov ++ [p]) ps

/-- The `while len(...) < 3` repair loop of `validate_structured_summary`;
`fuel` bounds the number of iterations (the Python loop can fail to make
progress when the generated paragraphs are all duplicates, so the model
returns `none` when fuel runs out). -/
def overviewFill (src : Str) (cc : List Str) : Nat → List Str → Option (List Str)
  | 0, ov => if ov.length ≥ 3 then some ov else none
  | fuel + 1, ov =>
    if ov.length ≥ 3 then some ov
    else overviewFill src cc fuel (appendNonDups ov (buildThreeParagraphOverview src cc))

/-- `validate_structured_summary` from `pipeline_utils.py`. -/
def validateStructuredSummary (fuel : Nat) (s : StructuredSummaryL) (sourceText : Str) :
    Option StructuredSummaryL :=
  let kd := ensureItemRange "Definition".data 4 8 s.key_definitions
  let cc := ensureItemRange "Concept".data 4 8 s.core_concepts
  let ex := ensureItemRange "Example".data 4 8 s.important_examples
  let rv := ensureItemRange "Revision Point".data 4 8 s.exam_revision_points
  let ov0 := (dedupeStrings s.overview_paragraphs).take 3
  let ov1 := if ov0.length < 3 then buildThreeParagraphOverview sourceText cc else ov0
  let ov2 := dedupeStrings ov1
  (overviewFill sourceText cc fuel ov2).map (fun ov =>
    { overview_paragraphs := ov, key_definitions := kd, core_concepts := cc,
      important_examples := ex, exam_revision_points := rv })

/-- The `MCQItem` pydantic model (`correct_index` as `Nat`). -/
structure MCQItemL where
  question : Str
  options : List Str
  correct_index : Nat
  explanation : Str
deriving DecidableEq, Inhabited

def mcqDefaultFact : Str :=
  "The lecture covers foundational concepts and their practical usage.".data

def mcqFillerDistractor : Str :=
  "This statement is not directly supported by the lecture notes.".data

def mcqExplanationText : Str :=
  "Correct option matches the grounded lecture statement, while distractors either shift context or weaken technical accuracy.".data

/-- The deduplicated fact pool of `LocalAIService.generate_mcqs`: all four
summary fields plus up to 2 sentences per grounding chunk, with the
default fact when the pool is empty. -/
def mcqPool (summary : StructuredSummaryL) (contextChunks : Option (List Str)) : List Str :=
  let contextFacts := ((contextChunks.getD []).map (fun chunk => (splitSentences chunk).take 2)).flatten
  let pool := dedupeStrings
    (summary.core_concepts ++ summary.key_definitions ++ summary.important_examples
      ++ summary.exam_revision_points ++ contextFacts)
  if pool = [] then [mcqDefaultFact] else pool

/-- The cyclically chosen (shortened) pool fact of question `index`. -/
def mcqFact (pool : List Str) (index : Nat) : Str :=
  shorten 120 (pool.getD (index % pool.length) [])

/-- The three distractors: up to 3 distinct shortened pool facts, padded
with the generic filler (the Python `while` appends the same literal). -/
def mcqDistractors (pool : List Str) (fact : Str) : List Str :=
  let distractors0 := ((pool.map (shorten 110)).filter
    (fun o => lowerStr o ≠ lowerStr fact)).take 3
  distractors0 ++ List.replicate (3 - distractors0.length) mcqFillerDistractor

/-- The pre-rotation option list `[fact, d0, d1, d2]`. -/
def mcqBase (pool : List Str) (index : Nat) : List Str :=
  let fact := mcqFact pool index
  let ds := mcqDistractors pool fact
  [fact, ds.getD 0 [], ds.getD 1 [], ds.getD 2 []]

/-- The rotated option list of question `index`. -/
def mcqOptions (pool : List Str) (index : Nat) : List Str :=
  (mcqBase pool index).drop (index % 4) ++ (mcqBase pool index).take (index % 4)

/-- One MCQ of `LocalAIService.generate_mcqs`: cyclic fact pick, up to 3
distinct distractors (padded with the filler), option order rotated by
`index % 4`, correct index recovered by `options.index(fact)`. -/
def mkMcq (pool : List Str) (index : Nat) : MCQItemL :=
  { question := "Which option is most consistent with this lecture statement: \"".data
      ++ mcqFact pool index ++ "\"?".data,
    options := mcqOptions pool index,
    correct_index := (mcqOptions pool index).findIdx (fun o => o == mcqFact pool index),
    explanation := mcqExplanationText }

/-- `LocalAIService.generate_mcqs`. -/
def generateMcqs (summary : StructuredSummaryL) (contextChunks : Option (List Str)) :
    List MCQItemL :=
  (List.range 5).map (mkMcq (mcqPool summary contextChunks))

/-- Arithmetic AST corresponding to the `ast` node whitelist of
`LocalAIService._safe_eval` (numeric constants, binary and unary
arithmetic operators). -/
inductive AExpr where
  | num (q : PyQ)
  | add (l r : AExpr)
  | sub (l r : AExpr)
  | mul (l r : AExpr)
  | div (l r : AExpr)
  | floordiv (l r : AExpr)
  | mod (l r : AExpr)
  | pow (l r : AExpr)
  | neg (e : AExpr)
  | pos (e : AExpr)
deriving DecidableEq

/-- Tokens of the restricted arithmetic expression language. -/
inductive ATok where
  | num (q : PyQ)
  | plus | minus | star | dstar | slash | dslash | percent | lpar | rpar
deriving DecidableEq

def natOfDigits (l : Str) : Nat := l.foldl (fun a c => a * 10 + (c.toNat - 48)) 0

/-- Value of a numeric literal `d1 . d2`. -/
def ratOfParts (d1 d2 : Str) : PyQ :=
  ⟨natOfDigits d1 * 10 ^ d2.length + natOfDigits d2, 10 ^ d2.length⟩

def takeDigits (l : Str) : Str × Str := (l.takeWhile Char.isDigit, l.dropWhile Char.isDigit)

/-- Lexer for the arithmetic sublanguage (Python tokenizer restricted to
the characters admitted by `_solve_arithmetic`'s full-match check).
Numeric literals are `d+ | d* . d*` with at least one digit or with
digits on at least one side of the dot. -/
def lexArith : Nat → Str → Except Unit (List ATok)
  | 0, _ => .error ()
  | _ + 1, [] => .ok []
  | fuel + 1, c :: rest =>
    if isPySpace c then lexArith fuel rest
    else if c = '+' then do pure (.plus :: (← lexArith fuel rest))
    else if c = '-' then do pure (.minus :: (← lexArith fuel rest))
    else if c = '%' then do pure (.percent :: (← lexArith fuel rest))
    else if c = '(' then do pure (.lpar :: (← lexArith fuel rest))
    else if c = ')' then do pure (.rpar :: (← lexArith fuel rest))
    else if c = '*' then
      match rest with
      | '*' :: rest2 => do pure (.dstar :: (← lexArith fuel rest2))
      | _ => do pure (.star :: (← lexArith fuel rest))
    else if c = '/' then
      match rest with
      | '/' :: rest2 => do pure (.dslash :: (← lexArith fuel rest2))
      | _ => do pure (.slash :: (← lexArith fuel rest))
    else if c.isDigit || c = '.' then
      let (d1, r1) := takeDigits (c :: rest)
      match r1 with
      | '.' :: r2 =>
        let (d2, r3) := takeDigits r2
        if d1 = [] && d2 = [] then .error ()
        else do pure (.num (ratOfParts d1 d2) :: (← lexArith fuel r3))
      | _ =>
        if d1 = [] then .error ()
        else do pure (.num (ratOfParts d1 []) :: (← lexArith fuel r1))
    else .error ()

mutual
/-- `expr := term (('+'|'-') term)*` (left associative). -/
def parseExpr : Nat → List ATok → Except Unit (AExpr × List ATok)
  | 0, _ => .error ()
  | fuel + 1, toks => do
    let (e, rest) ← parseTerm fuel toks
    parseExprTail fuel e rest

def parseExprTail : Nat → AExpr → List ATok → Except Unit (AExpr × List ATok)
  | 0, _, _ => .error ()
  | fuel + 1, acc, toks =>
    match toks with
    | .plus :: rest => do
      let (e, rest') ← parseTerm fuel rest
      parseExprTail fuel (.add acc e) rest'
    | .minus :: rest => do
      let (e, rest') ← parseTerm fuel rest
      parseExprTail fuel (.sub acc e) rest'
    | _ => .ok (acc, toks)

/-- `term := factor (('*'|'/'|'//'|'%') factor)*` (left associative). -/
def parseTerm : Nat → List ATok → Except Unit (AExpr × List ATok)
  | 0, _ => .error ()
  | fuel + 1, toks => do
    let (e, rest) ← parseFactor fuel toks
    parseTermTail fuel e rest

def parseTermTail : Nat → AExpr → List ATok → Except Unit (AExpr × List ATok)
  | 0, _, _ => .error ()
  | fuel + 1, acc, toks =>
    match toks with
    | .star :: rest => do
      let (e, rest') ← parseFactor fuel rest
      parseTermTail fuel (.mul acc e) rest'
    | .slash :: rest => do
      let (e, rest') ← parseFactor fuel rest
      parseTermTail fuel (.div acc e) rest'
    | .dslash :: rest => do
      let (e, rest') ← parseFactor fuel rest
      parseTermTail fuel (.floordiv acc e) rest'
    | .percent :: rest => do
      let (e, rest') ← parseFactor fuel rest
      parseTermTail fuel (.mod acc e) rest'
    | _ => .ok (acc, toks)

/-- `factor := ('+'|'-') factor | power` (unary sign binds looser than
`**` on the left, as in Python). -/
def parseFactor : Nat → List ATok → Except Unit (AExpr × List ATok)
  | 0, _ => .error ()
  | fuel + 1, toks =>
    match toks with
    | .plus :: rest => do
      let (e, rest') ← parseFactor fuel rest
      pure (.pos e, rest')
    | .minus :: rest => do
      let (e, rest') ← parseFactor fuel rest
      pure (.neg e, rest')
    | _ => parsePower fuel toks

/-- `power := atom ('**' factor)?` (right associative). -/
def parsePower : Nat → List ATok → Except Unit (AExpr × List ATok)
  | 0, _ => .error ()
  | fuel + 1, toks => do
    let (b, rest) ← parseAtom fuel toks
    match rest with
    | .dstar :: rest2 => do
      let (e, rest') ← parseFactor fuel rest2
      pure (.pow b e, rest')
    | _ => pure (b, rest)

def parseAtom : Nat → List ATok → Except Unit (AExpr × List ATok)
  | 0, _ => .error ()
  | fuel + 1, toks =>
    match toks with
    | .num q :: rest => .ok (.num q, rest)
    | .lpar :: rest => do
      let (e, rest') ← parseExpr fuel rest
      match rest' with
      | .rpar :: rest2 => pure (e, rest2)
      | _ => .error ()
    | _ => .error ()
end

/-- Evaluation of the restricted arithmetic AST with Python semantics:
division, floor-division and modulo by zero raise (`.error`); `%` and
`//` follow the divisor's sign; `**` is modelled for integer exponents
(the claims exercise no fractional powers, which produce irrational
floats outside this rational model), with `0 ** negative` raising. -/
def evalA : AExpr → Except Unit PyQ
  | .num q => .ok q
  | .add l r => do pure (PyQ.add (← evalA l) (← evalA r))
  | .sub l r => do pure (PyQ.sub (← evalA l) (← evalA r))
  | .mul l r => do pure (PyQ.mul (← evalA l) (← evalA r))
  | .div l r => do
    let rv ← evalA r
    if rv.isZero then .error () else pure (PyQ.div (← evalA l) rv)
  | .floordiv l r => do
    let rv ← evalA r
    if rv.isZero then .error ()
    else pure (PyQ.ofInt (PyQ.floor (PyQ.div (← evalA l) rv)))
  | .mod l r => do
    let rv ← evalA r
    if rv.isZero then .error ()
    else
      let lv ← evalA l
      pure (lv.sub (rv.mul (PyQ.ofInt (PyQ.floor (PyQ.div lv rv)))))
  | .pow l r => do
    let lv ← evalA l
    let rv ← evalA r
    if rv.isInt then
      if lv.isZero ∧ rv.num < 0 then .error () else pure (lv.zpow rv.toInt)
    else .error ()
  | .neg e => do pure (PyQ.neg (← evalA e))
  | .pos e => evalA e

/-- `LocalAIService._safe_eval`: parse the expression and evaluate it.
The `ast.walk` whitelist check holds by construction of `AExpr` (every
constructor is an allowed node and every constant is numeric). -/
def safeEval (l : Str) : Except Unit PyQ := do
  let toks ← lexArith (l.length + 1) l
  let (e, rest) ← parseExpr (8 * (toks.length + 1)) toks
  if rest = [] then evalA e else .error ()

/-- The character class `[0-9\.\+\-\*\/\(\)\s%*]` of `_solve_arithmetic`. -/
def isArithChar (c : Char) : Bool :=
  c.isDigit || c == '.' || c == '+' || c == '-' || c == '*' || c == '/'
    || c == '(' || c == ')' || c == '%' || isPySpace c

/-- `re.fullmatch(r"[0-9\.\+\-\*\/\(\)\s%*]+", ·)`. -/
def fullmatchArith (l : Str) : Bool := l ≠ [] && l.all isArithChar

/-- `candidate.replace("^", "**")`. -/
def replaceCaret : Str → Str
  | [] => []
  | c :: rest => if c = '^' then '*' :: '*' :: replaceCaret rest else c :: replaceCaret rest

/-- The command-word stripping of `_solve_arithmetic`: when the lowered
candidate starts with one of the four verbs, drop it and strip `" :"`. -/
def applyCmdStrip (candidate : Str) : Str :=
  let lowered := lowerStr candidate
  match (["calculate", "compute", "evaluate", "solve"].map String.data).find?
      (fun p => p.isPrefixOf lowered) with
  | some p => pyStripChars " :".data (candidate.drop p.length)
  | none => candidate

/-- Python `round()`: round half to even. -/
def roundHalfEven (q : PyQ) : Int :=
  let f := q.floor
  let r := q.sub (PyQ.ofInt f)
  if PyQ.lt r ⟨1, 2⟩ then f
  else if PyQ.lt ⟨1, 2⟩ r then f + 1
  else if f % 2 = 0 then f else f + 1

def rstripChar (c : Char) (l : Str) : Str := (l.reverse.dropWhile (· = c)).reverse

/-- `f"{v:.6f}"` modelled over rationals (rounding half to even at the
sixth decimal). -/
def fmt6 (v : PyQ) : Str :=
  let scaled := roundHalfEven (v.mul (PyQ.ofNat 1000000))
  let sign : Str := if scaled < 0 then ['-'] else []
  let a := scaled.natAbs
  let fp := natToStr (a % 1000000)
  sign ++ natToStr (a / 1000000) ++ ['.'] ++ (List.replicate (6 - fp.length) '0' ++ fp)

/-- `f"{v:.6f}".rstrip("0").rstrip(".")`. -/
def trimFmt6 (v : PyQ) : Str := rstripChar '.' (rstripChar '0' (fmt6 v))

/-- `LocalAIService._solve_arithmetic`. -/
def solveArithmetic (question : Str) : Option Str :=
  if question = [] then none
  else
    let candidate0 := replaceCaret (pyStrip question)
    let candidate := if fullmatchArith candidate0 then candidate0 else applyCmdStrip candidate0
    if fullmatchArith candidate then
      match safeEval candidate with
      | .error _ => none
      | .ok v =>
        let rounded := roundHalfEven v
        let valueText :=
          if PyQ.lt (PyQ.abs (v.sub (PyQ.ofInt rounded))) ⟨1, 1000000000⟩ then intToStr rounded
          else trimFmt6 v
        some ("Step-by-step:\n1. Expression recognized: ".data ++ candidate
          ++ "\n2. Evaluate by operator precedence.\n3. Final value = ".data ++ valueText)
    else none

/-- Python `float(str)` on plain decimal literals (no exponent or
inf/nan forms, which the solver's regexes cannot produce). -/
def pyFloat (l : Str) : Option PyQ :=
  let s := pyStrip l
  let (negSign, body) :=
    match s with
    | '+' :: r => (false, r)
    | '-' :: r => (true, r)
    | r => (false, r)
  let (d1, r1) := takeDigits body
  let finish := fun (q : PyQ) => if negSign then some q.neg else some q
  match r1 with
  | '.' :: r2 =>
    let (d2, r3) := takeDigits r2
    if r3 = [] && (d1 ≠ [] || d2 ≠ []) then finish (ratOfParts d1 d2) else none
  | [] => if d1 ≠ [] then finish (ratOfParts d1 []) else none
  | _ => none

/-- Python `repr(float)` for the values formatted by the linear solver.
Integral floats print as `n.0`; non-integral values (unexercised by the
claims) are approximated by the trimmed 6-decimal form. -/
def pyFloatRepr (q : PyQ) : Str :=
  if q.isInt then intToStr q.toInt ++ ".0".data else rstripChar '0' (fmt6 q)

/-- `LocalAIService._parse_coeff` (Python `float` failures are `none`). -/
def parseCoeff (value : Str) : Option PyQ :=
  let cleaned := value.filter (· ≠ ' ')
  if cleaned = [] || cleaned = ['+'] then some (PyQ.ofNat 1)
  else if cleaned = ['-'] then some (PyQ.ofInt (-1))
  else pyFloat cleaned

/-- Match `\d*\.?\d+` greedily (with regex backtracking) at the head of
`l`; returns matched text and remainder. -/
def matchNumTail (l : Str) : Option (Str × Str) :=
  let (d1, r1) := takeDigits l
  match r1 with
  | '.' :: r2 =>
    let (d2, r3) := takeDigits r2
    if d2 ≠ [] then some (d1 ++ '.' :: d2, r3)
    else if d1 ≠ [] then some (d1, r1)
    else none
  | _ => if d1 ≠ [] then some (d1, r1) else none

/-- Match `[+-]?\s*\d*\.?\d*` at the head (group 1 of the linear-equation
pattern); always succeeds, possibly with an empty match. -/
def matchCoeffPart (l : Str) : Str × Str :=
  let (sign, r0) :=
    match l with
    | '+' :: r => (['+'], r)
    | '-' :: r => (['-'], r)
    | r => (([] : Str), r)
  let sp := r0.takeWhile isPySpace
  let r1 := r0.drop sp.length
  let (d1, r2) := takeDigits r1
  match r2 with
  | '.' :: r3 =>
    let (d2, r4) := takeDigits r3
    (sign ++ sp ++ d1 ++ '.' :: d2, r4)
  | _ => (sign ++ sp ++ d1, r2)

/-- Match the optional `([+-]\s*\d*\.?\d+)?` group at the head. -/
def matchSignedNum (l : Str) : Option (Str × Str) :=
  match l with
  | c :: r0 =>
    if c = '+' || c = '-' then
      let sp := r0.takeWhile isPySpace
      match matchNumTail (r0.drop sp.length) with
      | some (numTxt, rest) => some (c :: (sp ++ numTxt), rest)
      | none => none
    else none
  | [] => none

/-- The regex `^\s*([+-]?\s*\d*\.?\d*)\s*x\s*([+-]\s*\d*\.?\d+)?\s*=\s*([+-]?\s*\d*\.?\d+)\s*$`
of `_solve_linear_equation` (IGNORECASE: `x` or `X`), returning the three
captured groups. -/
def matchLinear (q : Str) : Option (Str × Option Str × Str) :=
  let l0 := q.dropWhile isPySpace
  let (g1, r1) := matchCoeffPart l0
  let r2 := r1.dropWhile isPySpace
  match r2 with
  | x :: r3 =>
    if x = 'x' || x = 'X' then
      let r4 := r3.dropWhile isPySpace
      let (g2, r5) :=
        match matchSignedNum r4 with
        | some (txt, rest) => (some txt, rest)
        | none => (none, r4)
      let r6 := r5.dropWhile isPySpace
      match r6 with
      | '=' :: r7 =>
        let r8 := r7.dropWhile isPySpace
        let (sign3, r9) :=
          match r8 with
          | '+' :: r => (['+'], r)
          | '-' :: r => (['-'], r)
          | r => (([] : Str), r)
        let sp3 := r9.takeWhile isPySpace
        match matchNumTail (r9.drop sp3.length) with
        | some (numTxt, rest) =>
          if rest.dropWhile isPySpace = [] then some (g1, g2, sign3 ++ sp3 ++ numTxt)
          else none
        | none => none
      | _ => none
    else none
  | [] => none

def noSolutionMsg : Str :=
  "This equation has no single linear solution because coefficient of x is zero.".data

/-- `LocalAIService._solve_linear_equation`. -/
def solveLinearEquation (question : Str) : Option Str :=
  if question = [] then none
  else
    match matchLinear question with
    | none => none
    | some (g1, g2, g3) =>
      match parseCoeff g1, pyFloat ((g2.getD "0".data).filter (· ≠ ' ')),
          pyFloat (g3.filter (· ≠ ' ')) with
      | some a, some b, some c =>
        if PyQ.lt a.abs ⟨1, 1000000000000⟩ then some noSolutionMsg
        else
          let x := PyQ.div (c.sub b) a
          some ("Linear equation solution:\n1. Standard form: ".data ++ pyFloatRepr a
            ++ "x + (".data ++ pyFloatRepr b ++ ") = ".data ++ pyFloatRepr c
            ++ "\n2. Rearranged: ".data ++ pyFloatRepr a ++ "x = ".data
            ++ pyFloatRepr (c.sub b) ++ "\n3. x = ".data ++ trimFmt6 x)
      | _, _, _ => none

def offlineFrameworkText : Str :=
  ("Offline solver framework:\n1. Identify known values and unknowns.\n"
    ++ "2. Select formula/algorithm.\n3. Substitute and simplify carefully.\n"
    ++ "4. Verify result with units and logic.\n\n"
    ++ "Send the exact equation, code snippet, or full problem text for a precise solution.").data

def imageOnlyReply : Str :=
  ("Offline mode cannot read image content directly. "
    ++ "Please type the exact problem statement, and I will solve it step-by-step.").data

def imageTextPrefaceText : Str :=
  "I cannot parse the uploaded image offline, so I will solve from your typed text.\n\n".data

/-- `LocalAIService.solver_chat` (history and raw image bytes are unused
by the offline tier, exactly as in the source). -/
def solverChat (message : Str) (imageDataUrl : Option Str) : Str :=
  let question := pyStrip (collapseWs message)
  if question = [] && imageDataUrl.isSome then imageOnlyReply
  else
    let pre := if imageDataUrl.isSome then imageTextPrefaceText else []
    match solveArithmetic question with
    | some answer => pre ++ answer
    | none =>
      match solveLinearEquation question with
      | some answer => pre ++ answer
      | none => pre ++ offlineFrameworkText

/-- Exceptions crossing the fallback orchestrator: FastAPI
`HTTPException` with its status code and detail, or any other exception. -/
inductive PyExc where
  | http (status : Nat) (detail : Str)
  | other (msg : Str)
deriving DecidableEq

/-- `_is_recoverable_http_error` from `routes.py`. -/
def isRecoverableHttpError (status : Nat) : Bool :=
  status ∈ [401, 403, 429, 500, 502, 503, 504]

/-- The three tiers of the fallback chain, for the invocation trace. -/
inductive Tier where
  | primary | secondary | tertiary
deriving DecidableEq

/-- `_run_with_fallback_chain` from `routes.py`, over the outcomes of the
three callables; the second component is the invocation trace. A
recoverable `HTTPException` or any non-HTTP exception from the primary
falls through to the secondary; a non-recoverable `HTTPException`
re-raises; any exception from the secondary falls to the tertiary, whose
own outcome is final. -/
def runWithFallbackChain (p s t : Except PyExc α) : Except PyExc α × List Tier :=
  match p with
  | .ok v => (.ok v, [.primary])
  | .error e =>
    let fallThrough : Except PyExc α × List Tier :=
      match s with
      | .ok v => (.ok v, [.primary, .secondary])
      | .error _ => (t, [.primary, .secondary, .tertiary])
    match e with
    | .http status detail =>
      if isRecoverableHttpError status then fallThrough
      else (.error (.http status detail), [.primary])
    | .other _ => fallThrough

/-- One session record of `SessionStore` (times are integral time
units; the payload fields play no role in expiry). -/
structure SessionRec where
  createdAt : Int
  updatedAt : Int
  transcript : Str
  summary : Option StructuredSummaryL
  retrievalChunks : List Str
  mcqs : List MCQItemL
  chatHistory : List (Str × Str)
deriving DecidableEq

/-- The session store: TTL plus the session dictionary (keys are unique
in a Python dict, so the map is a function). -/
structure SessionStoreL where
  ttl : Int
  sessions : Str → Option SessionRec

/-- `_cleanup_expired_locked`: drop every record whose `updated_at` is
more than `ttl` behind `now`. -/
def cleanupExpired (now : Int) (store : SessionStoreL) : SessionStoreL :=
  { store with sessions := fun sid =>
      match store.sessions sid with
      | some rec => if now - rec.updatedAt > store.ttl then none else some rec
      | none => none }

def lookupSession (store : SessionStoreL) (sid : Str) : Option SessionRec :=
  store.sessions sid

def setSession (store : SessionStoreL) (sid : Str) (rec : SessionRec) : SessionStoreL :=
  { store with sessions := fun s => if s = sid then some rec else store.sessions s }

/-- `SessionStore.get`: cleanup, then look the id up; on a hit the
record's `updated_at` is refreshed to `now` and the record returned. -/
def sessionGet (now : Int) (store : SessionStoreL) (sid : Str) :
    Option SessionRec × SessionStoreL :=
  let store' := cleanupExpired now store
  match lookupSession store' sid with
  | none => (none, store')
  | some rec =>
    let rec' := { rec with updatedAt := now }
    (some rec', setSession store' sid rec')

/-- A JSON field value as consumed by `normalize_summary`: a list (its
items already coerced by `str(...)`), a string, or any other value (whose
only observable use is Python truthiness). -/
inductive JField where
  | jlist (items : List Str)
  | jstr (s : Str)
  | jother (truthy : Bool)
deriving DecidableEq

/-- Python truthiness of an optional JSON field (`data.get(k) or ...`). -/
def jTruthy : Option JField → Bool
  | none => false
  | some (.jlist items) => items ≠ []
  | some (.jstr s) => s ≠ []
  | some (.jother t) => t

/-- `clean_points` from `llm_utils.py`. -/
def cleanPoints : JField → List Str
  | .jlist items => (items.map pyStrip).filter (· ≠ [])
  | .jstr s => ((s.splitOn '\n').filter (fun chunk => pyStrip chunk ≠ [])).map
      (pyStripChars " -".data)
  | .jother _ => []

/-- The dictionary shape read by `normalize_summary`: the four overview
aliases and the four bulleted fields. -/
structure SummaryDict where
  overview_paragraphs : Option JField := none
  three_paragraph_summary : Option JField := none
  summary_paragraphs : Option JField := none
  lecture_overview : Option JField := none
  key_definitions : Option JField := none
  core_concepts : Option JField := none
  important_examples : Option JField := none
  exam_revision_points : Option JField := none
deriving DecidableEq

/-- `normalize_summary` from `llm_utils.py`. -/
def normalizeSummary (d : SummaryDict) : StructuredSummaryL :=
  let overview :=
    if jTruthy d.overview_paragraphs then d.overview_paragraphs.getD (.jlist [])
    else if jTruthy d.three_paragraph_summary then d.three_paragraph_summary.getD (.jlist [])
    else if jTruthy d.summary_paragraphs then d.summary_paragraphs.getD (.jlist [])
    else if jTruthy d.lecture_overview then d.lecture_overview.getD (.jlist [])
    else .jlist []
  { overview_paragraphs := (cleanPoints overview).take 3,
    key_definitions := cleanPoints (d.key_definitions.getD (.jlist [])),
    core_concepts := cleanPoints (d.core_concepts.getD (.jlist [])),
    important_examples := cleanPoints (d.important_examples.getD (.jlist [])),
    exam_revision_points := cleanPoints (d.exam_revision_points.getD (.jlist [])) }

/-- A parsed model response: a JSON object (modelled at the granularity
`normalize_summary` consumes) or JSON that is not an object. -/
inductive Json where
  | obj (d : SummaryDict)
  | nonobj
deriving DecidableEq

/-- Identity of each prompt issued by the multi-pass protocols, with the
arguments that determine the prompt text. -/
inductive PTag where
  | chunkP (text : Str) (index total : Nat)
  | reduceP (notes : List SummaryDict)
  | synthP (reduced : SummaryDict) (excerpt : Str)
  | validateP (candidate reduced : SummaryDict)
  | singleP (text : Str)
deriving DecidableEq

/-- A model-response oracle: the final outcome of `_generate_json` for a
given prompt — a parsed JSON payload, or `.error` when both the call and
its stricter retry failed to yield JSON (a raised exception). -/
def Oracle := PTag → Except Unit Json

/-- The per-chunk extraction loop shared by both adapters: each chunk is
sent independently; responses that are JSON objects are collected, other
JSON responses contribute nothing, and a raised exception aborts with the
trace so far. -/
def chunkNotesLoop (oracle : Oracle) (total : Nat) :
    List (Nat × Str) → List PTag × Except Unit (List SummaryDict)
  | [] => ([], .ok [])
  | (i, chunk) :: rest =>
    let tag := PTag.chunkP chunk i total
    match oracle tag with
    | .error e => ([tag], .error e)
    | .ok (.obj d) =>
      let (tags, res) := chunkNotesLoop oracle total rest
      (tag :: tags, res.map (d :: ·))
    | .ok .nonobj =>
      let (tags, res) := chunkNotesLoop oracle total rest
      (tag :: tags, res)

/-- Gemini's default reduced notes when the reduce response is not a
dict: the literal `{"key_definitions": [], ..., "fact_bank": []}`. -/
def geminiReduceDefault : SummaryDict :=
  { key_definitions := some (.jlist []), core_concepts := some (.jlist []),
    important_examples := some (.jlist []), exam_revision_points := some (.jlist []) }

/-- The empty dict `{}`. -/
def emptyDict : SummaryDict := {}

/-- `GeminiService._multi_pass_summary` over a response oracle, returning
the issued-prompt trace and the final dict (exceptions propagate). -/
def geminiMultiPassSummary (oracle : Oracle) (transcript : Str) :
    List PTag × Except Unit SummaryDict :=
  let cleaned := cleanTranscriptText 120000 transcript
  let chunks := splitIntoChunks 2500 240 10 cleaned
  if chunks = [] then
    let tag := PTag.singleP cleaned
    match oracle tag with
    | .error e => ([tag], .error e)
    | .ok (.obj d) => ([tag], .ok d)
    | .ok .nonobj => ([tag], .ok emptyDict)
  else
    let (tags, notesRes) := chunkNotesLoop oracle chunks.length (chunks.enumFrom 1)
    match notesRes with
    | .error e => (tags, .error e)
    | .ok chunkNotes =>
      if chunkNotes = [] then
        let tag := PTag.singleP cleaned
        match oracle tag with
        | .error e => (tags ++ [tag], .error e)
        | .ok (.obj d) => (tags ++ [tag], .ok d)
        | .ok .nonobj => (tags ++ [tag], .ok emptyDict)
      else
        let rTag := PTag.reduceP chunkNotes
        match oracle rTag with
        | .error e => (tags ++ [rTag], .error e)
        | .ok rRes =>
          let reduced := match rRes with | .obj d => d | .nonobj => geminiReduceDefault
          let sTag := PTag.synthP reduced cleaned
          match oracle sTag with
          | .error e => (tags ++ [rTag, sTag], .error e)
          | .ok sRes =>
            let candidate := match sRes with | .obj d => d | .nonobj => reduced
            let vTag := PTag.validateP candidate reduced
            match oracle vTag with
            | .error e => (tags ++ [rTag, sTag, vTag], .error e)
            | .ok vRes =>
              let validated := match vRes with | .obj d => d | .nonobj => candidate
              (tags ++ [rTag, sTag, vTag], .ok validated)

/-- `OllamaService.summarize` over a response oracle, returning the
issued-prompt trace and the outcome: the validated structured summary
(`validate_structured_summary` modelled with `fuel`), or a raised
exception. Unlike the Gemini adapter it has no all-chunks-failed
single-shot fallback: an empty note set flows into the reduce stage. -/
def ollamaSummarize (oracle : Oracle) (fuel : Nat) (transcript : Str) :
    List PTag × Except Unit (Option StructuredSummaryL) :=
  let cleaned := cleanTranscriptText 120000 transcript
  let chunks := splitIntoChunks 2400 200 8 cleaned
  if chunks = [] then
    let tag := PTag.singleP cleaned
    match oracle tag with
    | .error e => ([tag], .error e)
    | .ok (.obj d) =>
      ([tag], .ok (validateStructuredSummary fuel (normalizeSummary d) cleaned))
    | .ok .nonobj => ([tag], .error ())
  else
    let (tags, notesRes) := chunkNotesLoop oracle chunks.length (chunks.enumFrom 1)
    match notesRes with
    | .error e => (tags, .error e)
    | .ok chunkNotes =>
      let rTag := PTag.reduceP chunkNotes
      match oracle rTag with
      | .error e => (tags ++ [rTag], .error e)
      | .ok rRes =>
        let reduced := match rRes with | .obj d => d | .nonobj => emptyDict
        let sTag := PTag.synthP reduced cleaned
        match oracle sTag with
        | .error e => (tags ++ [rTag, sTag], .error e)
        | .ok sRes =>
          let candidate := match sRes with | .obj d => d | .nonobj => reduced
          let vTag := PTag.validateP candidate reduced
          match oracle vTag with
          | .error e => (tags ++ [rTag, sTag, vTag], .error e)
          | .ok vRes =>
            let finalData := match vRes with | .obj d => d | .nonobj => candidate
            (tags ++ [rTag, sTag, vTag],
              .ok (validateStructuredSummary fuel (normalizeSummary finalData) cleaned))

/-- Two consecutive whitespace characters occur somewhere. -/
def hasDoubleWs : Str → Bool
  | a :: b :: t => (isPySpace a && isPySpace b) || hasDoubleWs (b :: t)
  | _ => false

/-- A transcript longer than the 120000-char cap whose cleaned form has a
space exactly at the truncation boundary. -/
def c10Input : Str := List.replicate 119999 'a' ++ [' ', 'b', 'b']

def c1LongA : Str := List.replicate 200 'a'

def c1LongB : Str := List.replicate 200 'a' ++ " b".data

/-- A candidate summary whose two long key definitions truncate to the
same 183-character string. -/
def c1Summary : StructuredSummaryL :=
  { overview_paragraphs := ["First overview paragraph.".data,
      "Second overview paragraph.".data, "Third overview paragraph.".data],
    key_definitions := [c1LongA, c1LongB],
    core_concepts := ["Concept item number one.".data, "Concept item number two.".data,
      "Concept item number three.".data, "Concept item number four.".data],
    important_examples := [], exam_revision_points := [] }

/-- An oracle whose every chunk response is JSON but not an object, and
whose other responses are objects. -/
def c8Dict : SummaryDict := { core_concepts := some (.jlist ["Alpha beta gamma.".data]) }

def c8Oracle : Oracle := fun tag =>
  match tag with
  | .chunkP _ _ _ => .ok .nonobj
  | _ => .ok (.obj c8Dict)

def c8Transcript : Str := "Alpha beta gamma delta epsilon lecture notes analysis.".data

def isSingleTag : PTag → Bool
  | .singleP _ => true
  | _ => false

def c9Rec : SessionRec :=
  { createdAt := 0, updatedAt := 100, transcript := "t".data, summary := none,
    retrievalChunks := [], mcqs := [], chatHistory := [] }

def c9Store : SessionStoreL :=
  { ttl := 240, sessions := fun s => if s = "sess".data then some c9Rec else none }

/-- The all-empty `StructuredSummary`. -/
def emptySummary : StructuredSummaryL := ⟨[], [], [], [], []⟩

/-- A five-character transcript whose single space falls exactly on a
chunk boundary under `max_chars = 3`, `overlap_chars = 1`. -/
def c4Text : Str := "ab cd".data

/-- Whether an `Except` outcome is a success. -/
def exceptIsOk {α : Type} : Except Unit α → Bool
  | .ok _ => true
  | .error _ => false

/-- C6: the offline solver answers `"2+2"` with an explanation ending in
`Final value = 4`, and on `"10/(2-2)"` the division-by-zero attempt is
rejected and the generic (non-arithmetic) framework answer is returned,
with no exception and no inf/NaN success. -/
theorem c6_offline_arithmetic_solver :
    ("Final value = 4".data.isSuffixOf (solverChat "2+2".data none) = true)
    ∧ solverChat "10/(2-2)".data none = offlineFrameworkText := by
  decide

/-- C7: the offline linear solver derives `x = 3` from `"2x+3=9"`, and on
`"0x+5=9"` (zero coefficient) returns the explicit no-single-solution
message instead of dividing by zero or raising. -/
theorem c7_offline_linear_solver :
    solverChat "2x+3=9".data none =
      ("Linear equation solution:\n1. Standard form: 2.0x + (3.0) = 9.0\n"
        ++ "2. Rearranged: 2.0x = 6.0\n3. x = 3").data
    ∧ ("x = 3".data.isSuffixOf (solverChat "2x+3=9".data none) = true)
    ∧ solverChat "0x+5=9".data none = noSolutionMsg := by
  decide

/-- C2: when the primary raises a recoverable HTTP error
(401/403/429/500/502/503/504) or any non-HTTP exception and the secondary
raises any exception, the chain returns the tertiary's value and invokes
the tertiary exactly once; a non-recoverable HTTP error from the primary
propagates immediately, invoking neither the secondary nor the tertiary. -/
theorem c2_fallback_chain {α : Type} (e eS : PyExc) (v : α)
    (hrec : (∃ st d, e = .http st d ∧ isRecoverableHttpError st = true) ∨ ∃ m, e = .other m)
    (st : Nat) (d : Str) (hnr : isRecoverableHttpError st = false)
    (s2 t2 : Except PyExc α) :
    (runWithFallbackChain (.error e) (.error eS) (.ok v)
        = (.ok v, [.primary, .secondary, .tertiary])
      ∧ ((runWithFallbackChain (.error e) (.error eS) (.ok v)).2).count Tier.tertiary = 1)
    ∧ runWithFallbackChain (.error (.http st d)) s2 t2 = (.error (.http st d), [.primary]) := by
  refine ⟨?_, by simp [runWithFallbackChain, hnr]⟩
  have htrace : runWithFallbackChain (.error e) (.error eS) (.ok v)
      = (.ok v, [.primary, .secondary, .tertiary]) := by
    rcases hrec with ⟨st', d', rfl, h⟩ | ⟨m, rfl⟩
    · simp [runWithFallbackChain, h]
    · simp [runWithFallbackChain]
  exact ⟨htrace, by simp [htrace]⟩

/-- Witness for C2 at a concrete recoverable error (503), a failing
secondary, a tertiary returning 7, and a non-recoverable 400. -/
theorem c2_fallback_chain_witness :
    (runWithFallbackChain (α := Nat) (.error (.http 503 [])) (.error (.other "boom".data)) (.ok 7)
        = (.ok 7, [.primary, .secondary, .tertiary])
      ∧ ((runWithFallbackChain (α := Nat) (.error (.http 503 []))
          (.error (.other "boom".data)) (.ok 7)).2).count Tier.tertiary = 1)
    ∧ runWithFallbackChain (α := Nat) (.error (.http 400 [])) (.ok 1) (.ok 2)
        = (.error (.http 400 []), [.primary]) :=
  c2_fallback_chain (.http 503 []) (.other "boom".data) 7
    (Or.inl ⟨503, [], rfl, by decide⟩) 400 [] (by decide) (.ok 1) (.ok 2)

/-- C9: a session whose last update is older than the configured TTL
relative to now is not returned by `get` and is evicted from the store on
that access. -/
theorem c9_session_ttl_expiry (store : SessionStoreL) (now : Int) (sid : Str) (rec : SessionRec)
    (hfound : store.sessions sid = some rec) (hexp : now - rec.updatedAt > store.ttl) :
    (sessionGet now store sid).1 = none
    ∧ (sessionGet now store sid).2.sessions sid = none := by
  unfold sessionGet cleanupExpired lookupSession
  simp [hfound, hexp]

/-- Witness for C9: a record last updated at time 100 with TTL 240 is
gone when accessed at time 341. -/
theorem c9_session_ttl_expiry_witness :
    (sessionGet 341 c9Store "sess".data).1 = none
    ∧ (sessionGet 341 c9Store "sess".data).2.sessions "sess".data = none :=
  c9_session_ttl_expiry c9Store 341 "sess".data c9Rec (by decide) (by decide)

/-- Counterexample to C3 as stated: on the empty summary with no context
chunks the fact pool is a single default fact, all three distractors are
the identical filler, so the four options are not pairwise unique. -/
theorem c3_counterexample :
    ¬ ∀ item ∈ generateMcqs emptySummary none, item.options.Nodup := by
  decide

theorem getD_findIdx_of_exists {α : Type} (p : α → Bool) (l : List α) (d : α)
    (h : ∃ x ∈ l, p x = true) :
    p (l.getD (l.findIdx p) d) = true ∧ l.findIdx p < l.length := by
  induction l with
  | nil => simp at h
  | cons a t ih =>
    by_cases hp : p a = true
    · simp [List.findIdx_cons, hp]
    · obtain ⟨x, hx, hpx⟩ := h
      rcases List.mem_cons.mp hx with rfl | hx'
      · exact absurd hpx hp
      · have := ih ⟨x, hx', hpx⟩
        simp only [List.findIdx_cons, Bool.not_eq_true] at hp ⊢
        rw [hp]
        simpa [Nat.succ_lt_succ_iff] using this

theorem mcqBase_length (pool : List Str) (i : Nat) : (mcqBase pool i).length = 4 := by
  simp [mcqBase]

theorem mcqOptions_length (pool : List Str) (i : Nat) : (mcqOptions pool i).length = 4 := by
  have hr : i % 4 < 4 := Nat.mod_lt _ (by decide)
  rw [mcqOptions, List.length_append, List.length_drop, List.length_take, mcqBase_length]
  omega

theorem mcqFact_mem_options (pool : List Str) (i : Nat) :
    mcqFact pool i ∈ mcqOptions pool i := by
  have hb : mcqFact pool i ∈ mcqBase pool i := by simp [mcqBase]
  rw [← List.take_append_drop (i % 4) (mcqBase pool i)] at hb
  rcases List.mem_append.mp hb with h1 | h2
  · exact List.mem_append.mpr (Or.inr h1)
  · exact List.mem_append.mpr (Or.inl h2)

theorem mkMcq_spec (pool : List Str) (i : Nat) :
    (mkMcq pool i).options.length = 4
    ∧ (mkMcq pool i).correct_index < 4
    ∧ (mkMcq pool i).options.getD (mkMcq pool i).correct_index []
        = shorten 120 (pool.getD (i % pool.length) []) := by
  have hfind := getD_findIdx_of_exists (fun o => o == mcqFact pool i) (mcqOptions pool i) []
    ⟨mcqFact pool i, mcqFact_mem_options pool i, by simp⟩
  refine ⟨mcqOptions_length pool i, ?_, ?_⟩
  · show (mcqOptions pool i).findIdx (fun o => o == mcqFact pool i) < 4
    have := hfind.2
    rwa [mcqOptions_length pool i] at this
  · show (mcqOptions pool i).getD ((mcqOptions pool i).findIdx (fun o => o == mcqFact pool i)) []
      = shorten 120 (pool.getD (i % pool.length) [])
    have := hfind.1
    simpa [mcqFact] using this

/-- C3 (amended): the offline `generate_mcqs` always returns exactly 5
items, each with exactly 4 options, `correct_index` in range, and the
option at `correct_index` equal to the shortened pool fact chosen
cyclically for that question; pairwise uniqueness of the options is not
guaranteed (filler distractors and truncation can repeat). -/
theorem c3_generate_mcqs_amended (summary : StructuredSummaryL) (ctx : Option (List Str)) :
    (generateMcqs summary ctx).length = 5
    ∧ ∀ i, i < 5 →
      ((generateMcqs summary ctx).getD i default).options.length = 4
      ∧ ((generateMcqs summary ctx).getD i default).correct_index < 4
      ∧ ((generateMcqs summary ctx).getD i default).options.getD
          ((generateMcqs summary ctx).getD i default).correct_index []
        = shorten 120 ((mcqPool summary ctx).getD (i % (mcqPool summary ctx).length) []) := by
  refine ⟨by simp [generateMcqs], fun i hi => ?_⟩
  have hgd : (generateMcqs summary ctx).getD i default = mkMcq (mcqPool summary ctx) i := by
    unfold generateMcqs
    rw [List.getD_eq_getElem?_getD, List.getElem?_map, List.getElem?_range hi]
    rfl
  rw [hgd]
  exact mkMcq_spec _ i

/-- Witness for C3 (amended) at the empty summary without context. -/
theorem c3_generate_mcqs_amended_witness :
    (generateMcqs emptySummary none).length = 5
    ∧ ((generateMcqs emptySummary none).getD 0 default).options.length = 4 :=
  ⟨(c3_generate_mcqs_amended emptySummary none).1,
    ((c3_generate_mcqs_amended emptySummary none).2 0 (by decide)).1⟩

theorem mem_insertDesc {x y : PyQ × Str} {l : List (PyQ × Str)} :
    y ∈ insertDesc x l ↔ y = x ∨ y ∈ l := by
  induction l with
  | nil => simp [insertDesc]
  | cons a t ih =>
    by_cases h : PyQ.le x.1 a.1 = true
    · simp only [insertDesc, h, if_true, List.mem_cons, ih]
      try tauto
    · simp only [insertDesc, h, if_false, Bool.false_eq_true, List.mem_cons]
      try tauto

theorem mem_sortDesc_aux (l : List (PyQ × Str)) (acc : List (PyQ × Str)) (y : PyQ × Str) :
    y ∈ l.foldl (fun acc x => insertDesc x acc) acc ↔ y ∈ acc ∨ y ∈ l := by
  induction l generalizing acc with
  | nil => simp
  | cons a t ih =>
    rw [List.foldl_cons, ih, mem_insertDesc]
    simp only [List.mem_cons]
    tauto

theorem mem_sortDesc {y : PyQ × Str} {l : List (PyQ × Str)} : y ∈ sortDesc l ↔ y ∈ l := by
  simp [sortDesc, mem_sortDesc_aux]

theorem rankedChunks_mem {qts : List Str} {chunks : List Str} {pair : PyQ × Str}
    (h : pair ∈ rankedChunks qts chunks) :
    pair.2 ∈ chunks ∧ pair.1 = chunkScore qts pair.2
      ∧ PyQ.lt PyQ.zero (chunkScore qts pair.2) = true := by
  obtain ⟨c, hc, hf⟩ := List.mem_filterMap.mp h
  by_cases h1 : contentTokens c = []
  · rw [if_pos h1] at hf
    cases hf
  · rw [if_neg h1] at hf
    by_cases h2 : PyQ.lt PyQ.zero (chunkScore qts c) = true
    · rw [if_pos h2] at hf
      simp only [Option.some.injEq] at hf
      subst hf
      exact ⟨hc, rfl, h2⟩
    · rw [if_neg h2] at hf
      cases hf

/-- C5: on a non-empty chunk list the retriever returns at most `topK`
chunks, all drawn from the input; when the query has no surviving tokens,
or no chunk scores positively, it returns exactly the first
`min topK len` chunks in original order; and in ranked selection every
returned chunk has a strictly positive score. -/
theorem c5_select_top_chunks (query : Str) (chunks : List Str) (topK : Nat)
    (hne : chunks ≠ []) :
    (selectTopChunksForQuery query chunks topK).length ≤ topK
    ∧ (∀ c ∈ selectTopChunksForQuery query chunks topK, c ∈ chunks)
    ∧ (contentTokens query = [] →
        selectTopChunksForQuery query chunks topK = chunks.take topK
        ∧ (selectTopChunksForQuery query chunks topK).length = min topK chunks.length)
    ∧ (rankedChunks (contentTokens query) chunks = [] →
        selectTopChunksForQuery query chunks topK = chunks.take topK
        ∧ (selectTopChunksForQuery query chunks topK).length = min topK chunks.length)
    ∧ (contentTokens query ≠ [] → rankedChunks (contentTokens query) chunks ≠ [] →
        ∀ c ∈ selectTopChunksForQuery query chunks topK,
          PyQ.lt PyQ.zero (chunkScore (contentTokens query) c) = true) := by
  have hsel : selectTopChunksForQuery query chunks topK =
      (if contentTokens query = [] then chunks.take topK
       else if rankedChunks (contentTokens query) chunks = [] then chunks.take topK
       else ((sortDesc (rankedChunks (contentTokens query) chunks)).take topK).map (·.2)) := by
    rw [selectTopChunksForQuery, if_neg hne]
  by_cases hq : contentTokens query = []
  · rw [hsel, if_pos hq]
    refine ⟨List.length_take_le _ _, fun c hc => List.take_subset _ _ hc,
      fun _ => ⟨rfl, List.length_take _ _⟩, fun _ => ⟨rfl, List.length_take _ _⟩,
      fun hq' _ => absurd hq hq'⟩
  · by_cases hr : rankedChunks (contentTokens query) chunks = []
    · rw [hsel, if_neg hq, if_pos hr]
      refine ⟨List.length_take_le _ _, fun c hc => List.take_subset _ _ hc,
        fun hq' => absurd hq' hq, fun _ => ⟨rfl, List.length_take _ _⟩,
        fun _ hr' _ _ => absurd hr hr'⟩
    · rw [hsel, if_neg hq, if_neg hr]
      have hmem : ∀ c ∈ ((sortDesc (rankedChunks (contentTokens query) chunks)).take topK).map
          (·.2), c ∈ chunks ∧ PyQ.lt PyQ.zero (chunkScore (contentTokens query) c) = true := by
        intro c hc
        obtain ⟨pair, hp, hpc⟩ := List.mem_map.mp hc
        have hp' : pair ∈ rankedChunks (contentTokens query) chunks :=
          mem_sortDesc.mp (List.mem_of_mem_take hp)
        have := rankedChunks_mem hp'
        rw [← hpc]
        exact ⟨this.1, this.2.2⟩
      refine ⟨?_, fun c hc => (hmem c hc).1, fun hq' => absurd hq' hq,
        fun hr' => absurd hr' hr, fun _ _ c hc => (hmem c hc).2⟩
      rw [List.length_map]
      exact List.length_take_le _ _

/-- Witness for C5 at a concrete query and two concrete chunks. -/
theorem c5_select_top_chunks_witness :
    (selectTopChunksForQuery "alpha".data ["alpha beta".data, "gamma delta".data] 4).length ≤ 4
    ∧ ∀ c ∈ selectTopChunksForQuery "alpha".data ["alpha beta".data, "gamma delta".data] 4,
        c ∈ ["alpha beta".data, "gamma delta".data] :=
  ⟨(c5_select_top_chunks "alpha".data ["alpha beta".data, "gamma delta".data] 4 (by decide)).1,
    (c5_select_top_chunks "alpha".data ["alpha beta".data, "gamma delta".data] 4 (by decide)).2.1⟩

theorem dropWhile_head_false {p : Char → Bool} {l : Str} {c : Char} {r : Str}
    (h : l.dropWhile p = c :: r) : p c = false := by
  induction l with
  | nil => simp at h
  | cons a t ih =>
    rw [List.dropWhile_cons] at h
    by_cases hp : p a = true
    · rw [if_pos hp] at h
      exact ih h
    · rw [if_neg (by simp [hp])] at h
      cases h
      simpa using hp

theorem exists_suffix_dropWhile (p : Char → Bool) (l : Str) :
    ∃ s, s ++ l.dropWhile p = l := by
  induction l with
  | nil => exact ⟨[], rfl⟩
  | cons a t ih =>
    by_cases hp : p a = true
    · obtain ⟨s, hs⟩ := ih
      exact ⟨a :: s, by rw [List.dropWhile_cons, if_pos hp, List.cons_append, hs]⟩
    · exact ⟨[], by rw [List.dropWhile_cons, if_neg (by simp [hp]), List.nil_append]⟩

theorem exists_prefix_pyRStrip (l : Str) : ∃ t, pyRStrip l ++ t = l := by
  obtain ⟨s, hs⟩ := exists_suffix_dropWhile isPySpace l.reverse
  refine ⟨s.reverse, ?_⟩
  calc (l.reverse.dropWhile isPySpace).reverse ++ s.reverse
      = (s ++ l.reverse.dropWhile isPySpace).reverse := (List.reverse_append _ _).symm
    _ = l.reverse.reverse := by rw [hs]
    _ = l := List.reverse_reverse l

theorem pyStrip_subset (l : Str) : ∀ x ∈ pyStrip l, x ∈ l := by
  intro x hx
  obtain ⟨t, ht⟩ := exists_prefix_pyRStrip (pyLStrip l)
  obtain ⟨s, hs⟩ := exists_suffix_dropWhile isPySpace l
  have hx1 : x ∈ pyLStrip l := ht ▸ List.mem_append.mpr (Or.inl hx)
  exact hs ▸ List.mem_append.mpr (Or.inr hx1)

theorem hasDoubleWs_cons_tail {x : Char} {r : Str} (h : hasDoubleWs (x :: r) = false) :
    hasDoubleWs r = false := by
  cases r with
  | nil => rfl
  | cons y t =>
    rw [hasDoubleWs] at h
    exact (Bool.or_eq_false_iff.mp h).2

theorem hasDoubleWs_append_right {a b : Str} (h : hasDoubleWs (a ++ b) = false) :
    hasDoubleWs b = false := by
  induction a with
  | nil => exact h
  | cons x t ih =>
    rw [List.cons_append] at h
    exact ih (hasDoubleWs_cons_tail h)

theorem hasDoubleWs_append_left {a b : Str} (h : hasDoubleWs (a ++ b) = false) :
    hasDoubleWs a = false := by
  induction a with
  | nil => rfl
  | cons x t ih =>
    cases t with
    | nil => rfl
    | cons y t2 =>
      rw [List.cons_append, List.cons_append] at h
      rw [hasDoubleWs] at h ⊢
      rcases Bool.or_eq_false_iff.mp h with ⟨h1, h2⟩
      rw [h1, Bool.false_or]
      exact ih h2

theorem hasDoubleWs_pyStrip {l : Str} (h : hasDoubleWs l = false) :
    hasDoubleWs (pyStrip l) = false := by
  obtain ⟨s, hs⟩ := exists_suffix_dropWhile isPySpace l
  have h1 : hasDoubleWs (pyLStrip l) = false :=
    hasDoubleWs_append_right (a := s) (by unfold pyLStrip; rw [hs]; exact h)
  obtain ⟨t, ht⟩ := exists_prefix_pyRStrip (pyLStrip l)
  exact hasDoubleWs_append_left (b := t) (by unfold pyStrip; rw [ht]; exact h1)

theorem collapseWsGo_props (l : Str) : ∀ b : Bool,
    (∀ c ∈ collapseWsGo b l, isPySpace c = true → c = ' ')
    ∧ hasDoubleWs (collapseWsGo b l) = false
    ∧ (∀ c r, collapseWsGo true l = c :: r → isPySpace c = false) := by
  induction l with
  | nil =>
    intro b
    refine ⟨by simp [collapseWsGo], by cases b <;> rfl, fun c r h => by simp [collapseWsGo] at h⟩
  | cons a t ih =>
    intro b
    by_cases ha : isPySpace a = true
    · have htrue : collapseWsGo true (a :: t) = collapseWsGo true t := by
        simp [collapseWsGo, ha]
      have hfalse : collapseWsGo false (a :: t) = ' ' :: collapseWsGo true t := by
        simp [collapseWsGo, ha]
      refine ⟨?_, ?_, ?_⟩
      · intro c hc hcs
        cases b with
        | true =>
          rw [htrue] at hc
          exact (ih true).1 c hc hcs
        | false =>
          rw [hfalse] at hc
          rcases List.mem_cons.mp hc with rfl | hc'
          · rfl
          · exact (ih true).1 c hc' hcs
      · cases b with
        | true => rw [htrue]; exact (ih true).2.1
        | false =>
          rw [hfalse]
          cases hgo : collapseWsGo true t with
          | nil => rfl
          | cons c r =>
            rw [hasDoubleWs]
            have hc : isPySpace c = false := (ih true).2.2 c r hgo
            rw [hc]
            simp only [Bool.and_false, Bool.false_or]
            rw [← hgo]
            exact (ih true).2.1
      · intro c r h
        rw [htrue] at h
        exact (ih true).2.2 c r h
    · have hb : ∀ b2 : Bool, collapseWsGo b2 (a :: t) = a :: collapseWsGo false t := by
        intro b2
        cases b2 <;> simp [collapseWsGo, ha]
      refine ⟨?_, ?_, ?_⟩
      · intro c hc hcs
        rw [hb b] at hc
        rcases List.mem_cons.mp hc with rfl | hc'
        · exact absurd hcs (by simp [ha])
        · exact (ih false).1 c hc' hcs
      · rw [hb b]
        cases hgo : collapseWsGo false t with
        | nil => rfl
        | cons c r =>
          rw [hasDoubleWs]
          simp only [ha, Bool.false_and, Bool.false_or]
          rw [← hgo]
          exact (ih false).2.1
      · intro c r h
        rw [hb true] at h
        cases h
        simpa using ha

theorem subTimestampsGo_id (l : Str) (hd : ∀ c ∈ l, c.isDigit = false) :
    ∀ fuel w, subTimestampsGo fuel w l = l := by
  induction l with
  | nil => intro fuel w; cases fuel <;> rfl
  | cons c rest ih =>
    intro fuel w
    cases fuel with
    | zero => rfl
    | succ f =>
      have hc : c.isDigit = false := hd c (List.mem_cons_self _ _)
      simp [subTimestampsGo, hc, ih (fun x hx => hd x (List.mem_cons_of_mem _ hx))]

theorem subTimestamps_id (l : Str) (hd : ∀ c ∈ l, c.isDigit = false) : subTimestamps l = l :=
  subTimestampsGo_id l hd l.length false

theorem subBracketsGo_id (openC close : Char) (l : Str) (hd : ∀ c ∈ l, c ≠ openC) :
    ∀ fuel, subBracketsGo openC close fuel l = l := by
  induction l with
  | nil => intro fuel; cases fuel <;> rfl
  | cons c rest ih =>
    intro fuel
    cases fuel with
    | zero => rfl
    | succ f =>
      have hc : c ≠ openC := hd c (List.mem_cons_self _ _)
      simp [subBracketsGo, hc, ih (fun x hx => hd x (List.mem_cons_of_mem _ hx))]

theorem subBrackets_id (l : Str) (hd : ∀ c ∈ l, c ≠ '[') : subBrackets l = l :=
  subBracketsGo_id '[' ']' l hd l.length

theorem subParens_id (l : Str) (hd : ∀ c ∈ l, c ≠ '(') : subParens l = l :=
  subBracketsGo_id '(' ')' l hd l.length

theorem subSpeakerGo_id (l : Str) (hd : ∀ c ∈ l, c.isUpper = false) :
    ∀ fuel b, subSpeakerGo fuel b l = l := by
  induction l with
  | nil => intro fuel b; cases fuel <;> rfl
  | cons c rest ih =>
    intro fuel b
    cases fuel with
    | zero => rfl
    | succ f =>
      have hc : c.isUpper = false := hd c (List.mem_cons_self _ _)
      simp [subSpeakerGo, hc, ih (fun x hx => hd x (List.mem_cons_of_mem _ hx))]

theorem subSpeaker_id (l : Str) (hd : ∀ c ∈ l, c.isUpper = false) : subSpeaker l = l :=
  subSpeakerGo_id l hd l.length true

theorem collapseWsGo_false_id (l : Str) (hnd : hasDoubleWs l = false)
    (hsp : ∀ c ∈ l, isPySpace c = true → c = ' ') :
    collapseWsGo false l = l
    ∧ ((∀ c r, l = c :: r → isPySpace c = false) → collapseWsGo true l = l) := by
  induction l with
  | nil => exact ⟨rfl, fun _ => rfl⟩
  | cons a t ih =>
    have hndr : hasDoubleWs t = false := hasDoubleWs_cons_tail hnd
    have hspr : ∀ x ∈ t, isPySpace x = true → x = ' ' :=
      fun x hx => hsp x (List.mem_cons_of_mem _ hx)
    obtain ⟨ih1, ih2⟩ := ih hndr hspr
    by_cases ha : isPySpace a = true
    · have ha' : a = ' ' := hsp a (List.mem_cons_self _ _) ha
      have hheadr : ∀ c r, t = c :: r → isPySpace c = false := by
        intro c r hcr
        subst hcr
        rw [hasDoubleWs] at hnd
        rcases Bool.or_eq_false_iff.mp hnd with ⟨h1, _⟩
        rcases Bool.and_eq_false_iff.mp h1 with h | h
        · exact absurd ha (by simp [h])
        · exact h
      have hrest : collapseWsGo true t = t := ih2 hheadr
      constructor
      · simp [collapseWsGo, ha, hrest, ha', ih1]
      · intro hhead
        exact absurd ha (by simp [hhead a t rfl])
    · constructor
      · simp [collapseWsGo, ha, ih1]
      · intro _
        simp [collapseWsGo, ha, ih1]

theorem collapseWs_id (l : Str) (hnd : hasDoubleWs l = false)
    (hsp : ∀ c ∈ l, isPySpace c = true → c = ' ') : collapseWs l = l :=
  (collapseWsGo_false_id l hnd hsp).1

theorem pyStrip_id (l : Str) (h1 : ∀ c r, l = c :: r → isPySpace c = false)
    (h2 : ∀ c r, l.reverse = c :: r → isPySpace c = false) : pyStrip l = l := by
  cases l with
  | nil => rfl
  | cons a t =>
    have ha : isPySpace a = false := h1 a t rfl
    have hlstrip : pyLStrip (a :: t) = a :: t := by
      unfold pyLStrip
      rw [List.dropWhile_cons, if_neg (by simp [ha])]
    unfold pyStrip
    rw [hlstrip]
    cases hr : (a :: t).reverse with
    | nil => simp at hr
    | cons b r =>
      have hb : isPySpace b = false := h2 b r hr
      unfold pyRStrip
      rw [hr, List.dropWhile_cons, if_neg (by simp [hb]), ← hr, List.reverse_reverse]

theorem splitBlankGo_no_nl (l : Str) (h : '\n' ∉ l) :
    ∀ fuel cur, splitBlankGo fuel cur l = [cur.reverse ++ l] := by
  induction l with
  | nil => intro fuel cur; cases fuel <;> simp [splitBlankGo]
  | cons c rest ih =>
    intro fuel cur
    cases fuel with
    | zero => rfl
    | succ f =>
      have hc : ¬ c = '\n' := fun he => h (he ▸ List.mem_cons_self _ _)
      rw [splitBlankGo, if_neg hc, ih (fun hm => h (List.mem_cons_of_mem _ hm)) f (c :: cur)]
      simp

theorem splitBlank_no_nl (l : Str) (h : '\n' ∉ l) : splitBlank l = [l] := by
  rw [splitBlank, splitBlankGo_no_nl l h l.length []]
  simp

theorem hasDoubleWs_replicate_append (t : Str) :
    ∀ n, hasDoubleWs (List.replicate n 'a' ++ t) = hasDoubleWs t := by
  intro n
  induction n with
  | zero => simp
  | succ m ih =>
    rw [List.replicate_succ, List.cons_append]
    cases hx : List.replicate m 'a' ++ t with
    | nil =>
      have : t = [] := (List.append_eq_nil.mp hx).2
      subst this
      cases m <;> simp_all [hasDoubleWs]
    | cons c2 t2 =>
      rw [hasDoubleWs, ← hx, ih]
      simp [isPySpace]

theorem c10Input_chars : ∀ c ∈ c10Input, c = 'a' ∨ c = ' ' ∨ c = 'b' := by
  intro c hc
  rw [c10Input] at hc
  rcases List.mem_append.mp hc with h | h
  · exact Or.inl (List.eq_of_mem_replicate h)
  · simp at h
    tauto

theorem c10Input_head : c10Input = 'a' :: (List.replicate 119998 'a' ++ [' ', 'b', 'b']) := by
  rw [c10Input, show (119999 : Nat) = 119998 + 1 from rfl, List.replicate_succ, List.cons_append]

theorem c10Input_rev :
    c10Input.reverse = 'b' :: 'b' :: ' ' :: (List.replicate 119999 'a').reverse := by
  rw [c10Input, List.reverse_append,
    show ([' ', 'b', 'b'] : List Char).reverse = ['b', 'b', ' '] from rfl,
    List.cons_append, List.cons_append, List.cons_append, List.nil_append]

/-- Counterexample to C10 as stated: a transcript longer than the
120000-char cap can be cut right after a space, and the appended
truncation marker starts with a space, so the cleaned text contains two
consecutive whitespace characters. -/
theorem c10_counterexample : hasDoubleWs (cleanTranscriptText 120000 c10Input) = true := by
  have hstrip : pyStrip c10Input = c10Input := by
    apply pyStrip_id
    · intro c r h
      rw [c10Input_head] at h
      cases h
      decide
    · intro c r h
      rw [c10Input_rev] at h
      cases h
      decide
  have hts : subTimestamps c10Input = c10Input := by
    apply subTimestamps_id
    intro c hc
    rcases c10Input_chars c hc with rfl | rfl | rfl <;> decide
  have hbr : subBrackets c10Input = c10Input := by
    apply subBrackets_id
    intro c hc
    rcases c10Input_chars c hc with rfl | rfl | rfl <;> decide
  have hpar : subParens c10Input = c10Input := by
    apply subParens_id
    intro c hc
    rcases c10Input_chars c hc with rfl | rfl | rfl <;> decide
  have hspk : subSpeaker c10Input = c10Input := by
    apply subSpeaker_id
    intro c hc
    rcases c10Input_chars c hc with rfl | rfl | rfl <;> decide
  have hndw : hasDoubleWs c10Input = false := by
    rw [c10Input, hasDoubleWs_replicate_append]
    decide
  have hcoll : collapseWs c10Input = c10Input := by
    apply collapseWs_id _ hndw
    intro c hc hws
    rcases c10Input_chars c hc with rfl | rfl | rfl
    · exact absurd hws (by decide)
    · rfl
    · exact absurd hws (by decide)
  have hlen : c10Input.length = 120002 := by
    rw [c10Input, List.length_append, List.length_replicate]
    rfl
  have hne : c10Input ≠ [] := by
    rw [c10Input_head]
    exact List.cons_ne_nil _ _
  have hclean : cleanTranscriptText 120000 c10Input = c10Input.take 120000 ++ truncMarker := by
    simp only [cleanTranscriptText]
    rw [hstrip, if_neg hne, hts, hbr, hpar, hspk, hcoll, hstrip, hlen, if_pos (by decide)]
  have htake : c10Input.take 120000 = List.replicate 119999 'a' ++ [' '] := by
    rw [c10Input, List.take_append_eq_append_take, List.length_replicate,
      List.take_of_length_le (by rw [List.length_replicate]; omega),
      show (120000 - 119999 : Nat) = 1 from rfl,
      show (List.take 1 ([' ', 'b', 'b'] : List Char)) = [' '] from rfl]
  rw [hclean, htake, List.append_assoc, hasDoubleWs_replicate_append]
  decide

/-- C10 (amended): the cleaned transcript never contains a newline — so
chunking can never find a blank-line paragraph boundary — and, whenever
the cleaned text was not truncated at the cap, it contains no two
consecutive whitespace characters; truncation can create one double
space at the boundary between the cut text and the appended marker. -/
theorem c10_clean_transcript_amended (maxChars : Nat) (text : Str) :
    '\n' ∉ cleanTranscriptText maxChars text
    ∧ ((cleanTranscriptText maxChars text).length ≤ maxChars →
        hasDoubleWs (cleanTranscriptText maxChars text) = false)
    ∧ splitBlank (cleanTranscriptText maxChars text) = [cleanTranscriptText maxChars text] := by
  have props := collapseWsGo_props (subSpeaker (subParens (subBrackets (subTimestamps
    (pyStrip text))))) false
  have hnl5 : '\n' ∉ pyStrip (collapseWs (subSpeaker (subParens (subBrackets (subTimestamps
      (pyStrip text)))))) := by
    intro h
    have hmem := pyStrip_subset _ '\n' h
    have := props.1 '\n' hmem (by decide)
    exact absurd this (by decide)
  have hnd5 : hasDoubleWs (pyStrip (collapseWs (subSpeaker (subParens (subBrackets
      (subTimestamps (pyStrip text))))))) = false := hasDoubleWs_pyStrip props.2.1
  have hmarker : '\n' ∉ truncMarker := by decide
  have hform : cleanTranscriptText maxChars text = [] ∨
      cleanTranscriptText maxChars text = pyStrip (collapseWs (subSpeaker (subParens
        (subBrackets (subTimestamps (pyStrip text)))))) ∨
      (cleanTranscriptText maxChars text = (pyStrip (collapseWs (subSpeaker (subParens
        (subBrackets (subTimestamps (pyStrip text))))))).take maxChars ++ truncMarker
        ∧ (pyStrip (collapseWs (subSpeaker (subParens (subBrackets (subTimestamps
          (pyStrip text))))))).length > maxChars) := by
    simp only [cleanTranscriptText]
    by_cases he : pyStrip text = []
    · rw [if_pos he]
      exact Or.inl rfl
    · rw [if_neg he]
      by_cases hl : (pyStrip (collapseWs (subSpeaker (subParens (subBrackets (subTimestamps
          (pyStrip text))))))).length > maxChars
      · rw [if_pos hl]
        exact Or.inr (Or.inr ⟨rfl, hl⟩)
      · rw [if_neg hl]
        exact Or.inr (Or.inl rfl)
  have hnl : '\n' ∉ cleanTranscriptText maxChars text := by
    rcases hform with h | h | ⟨h, _⟩
    · rw [h]
      simp
    · rw [h]
      exact hnl5
    · rw [h]
      intro hm
      rcases List.mem_append.mp hm with h1 | h1
      · exact hnl5 (List.take_subset _ _ h1)
      · exact hmarker h1
  refine ⟨hnl, ?_, splitBlank_no_nl _ hnl⟩
  intro hle
  rcases hform with h | h | ⟨h, hgt⟩
  · rw [h]
    rfl
  · rw [h]
    exact hnd5
  · rw [h] at hle
    rw [List.length_append, List.length_take] at hle
    have : min maxChars (pyStrip (collapseWs (subSpeaker (subParens (subBrackets
        (subTimestamps (pyStrip text))))))).length = maxChars := by omega
    rw [this] at hle
    have : truncMarker.length = 23 := by decide
    omega

/-- Witness for C10 (amended) at a short concrete transcript. -/
theorem c10_clean_transcript_amended_witness :
    '\n' ∉ cleanTranscriptText 120000 "a  b\nc".data
    ∧ hasDoubleWs (cleanTranscriptText 120000 "a  b\nc".data) = false :=
  ⟨(c10_clean_transcript_amended 120000 "a  b\nc".data).1,
    (c10_clean_transcript_amended 120000 "a  b\nc".data).2.1 (by decide)⟩

theorem pyStrip_head_not_space {l : Str} {c : Char} {r : Str}
    (h : pyStrip l = c :: r) : isPySpace c = false := by
  obtain ⟨t, ht⟩ := exists_prefix_pyRStrip (pyLStrip l)
  rw [pyStrip] at h
  rw [h, List.cons_append] at ht
  unfold pyLStrip at ht
  exact dropWhile_head_false ht.symm

theorem chunkLoop_mem (mc oc k : Nat) (parts : List Str) :
    ∀ (chunks : List Str) (cur : Str),
      ∀ x ∈ chunkLoop mc oc k parts chunks cur, x ∈ chunks ∨ ∃ y, x = pyStrip y := by
  induction parts with
  | nil =>
    intro chunks cur x hx
    simp only [chunkLoop] at hx
    split at hx
    · rcases List.mem_append.mp hx with h | h
      · exact Or.inl h
      · exact Or.inr ⟨cur, by simpa using h⟩
    · exact Or.inl hx
  | cons part parts ih =>
    intro chunks cur x hx
    simp only [chunkLoop] at hx
    by_cases hcur : cur = []
    · simp only [hcur, ne_eq, not_true_eq_false, if_false, ite_false] at hx
      split at hx
      · rcases ih chunks part x hx with h | h
        · exact Or.inl h
        · exact Or.inr h
      · split at hx
        · rcases List.mem_append.mp hx with h | h
          · exact Or.inl h
          · exact Or.inr ⟨part.take mc, by simpa using h⟩
        · rcases ih _ _ x hx with h | h
          · rcases List.mem_append.mp h with h1 | h1
            · exact Or.inl h1
            · exact Or.inr ⟨part.take mc, by simpa using h1⟩
          · exact Or.inr h
    · simp only [hcur, ne_eq, not_false_eq_true, if_true, ite_true] at hx
      split at hx
      · rcases ih chunks _ x hx with h | h
        · exact Or.inl h
        · exact Or.inr h
      · split at hx
        · rcases List.mem_append.mp hx with h | h
          · exact Or.inl h
          · exact Or.inr ⟨cur, by simpa using h⟩
        · rcases ih _ _ x hx with h | h
          · rcases List.mem_append.mp h with h1 | h1
            · exact Or.inl h1
            · exact Or.inr ⟨cur, by simpa using h1⟩
          · exact Or.inr h

theorem chunkLoop_length_le (mc oc k : Nat) (parts : List Str) :
    ∀ (chunks : List Str) (cur : Str), chunks.length < k →
      (chunkLoop mc oc k parts chunks cur).length ≤ k := by
  induction parts with
  | nil =>
    intro chunks cur hlt
    simp only [chunkLoop]
    split
    · rw [List.length_append]
      simp only [List.length_cons, List.length_nil]
      omega
    · omega
  | cons part parts ih =>
    intro chunks cur hlt
    simp only [chunkLoop]
    by_cases hcur : cur = []
    · simp only [hcur, ne_eq, not_true_eq_false, if_false, ite_false]
      split
      · exact ih chunks part hlt
      · split
        · rw [List.length_append]
          simp only [List.length_cons, List.length_nil]
          omega
        · refine ih _ _ ?_
          rename_i hge
          rw [List.length_append] at hge ⊢
          simp only [List.length_cons, List.length_nil] at hge ⊢
          omega
    · simp only [hcur, ne_eq, not_false_eq_true, if_true, ite_true]
      split
      · exact ih chunks _ hlt
      · split
        · rw [List.length_append]
          simp only [List.length_cons, List.length_nil]
          omega
        · refine ih _ _ ?_
          rename_i hge
          rw [List.length_append] at hge ⊢
          simp only [List.length_cons, List.length_nil] at hge ⊢
          omega

theorem pyStrip_rev_head_not_space {l : Str} {c : Char} {r : Str}
    (h : (pyStrip l).reverse = c :: r) : isPySpace c = false := by
  unfold pyStrip pyRStrip at h
  rw [List.reverse_reverse] at h
  exact dropWhile_head_false h

theorem pyStrip_idem (l : Str) : pyStrip (pyStrip l) = pyStrip l := by
  apply pyStrip_id
  · intro c r h
    exact pyStrip_head_not_space h
  · intro c r h
    exact pyStrip_rev_head_not_space h

theorem cleanTranscriptText_form (maxChars : Nat) (text : Str) :
    cleanTranscriptText maxChars text = [] ∨
    (cleanTranscriptText maxChars text
        = pyStrip (collapseWs (subSpeaker (subParens (subBrackets (subTimestamps
            (pyStrip text))))))
      ∧ (pyStrip (collapseWs (subSpeaker (subParens (subBrackets (subTimestamps
            (pyStrip text))))))).length ≤ maxChars) ∨
    (cleanTranscriptText maxChars text
        = (pyStrip (collapseWs (subSpeaker (subParens (subBrackets (subTimestamps
            (pyStrip text))))))).take maxChars ++ truncMarker
      ∧ (pyStrip (collapseWs (subSpeaker (subParens (subBrackets (subTimestamps
            (pyStrip text))))))).length > maxChars) := by
  simp only [cleanTranscriptText]
  by_cases he : pyStrip text = []
  · rw [if_pos he]
    exact Or.inl rfl
  · rw [if_neg he]
    by_cases hl : (pyStrip (collapseWs (subSpeaker (subParens (subBrackets (subTimestamps
        (pyStrip text))))))).length > maxChars
    · rw [if_pos hl]
      exact Or.inr (Or.inr ⟨rfl, hl⟩)
    · rw [if_neg hl]
      exact Or.inr (Or.inl ⟨rfl, by omega⟩)

theorem cleanTranscriptText_no_newline (maxChars : Nat) (text : Str) :
    '\n' ∉ cleanTranscriptText maxChars text := by
  have props := collapseWsGo_props (subSpeaker (subParens (subBrackets (subTimestamps
    (pyStrip text))))) false
  have hnl5 : '\n' ∉ pyStrip (collapseWs (subSpeaker (subParens (subBrackets (subTimestamps
      (pyStrip text)))))) := by
    intro h
    have hmem := pyStrip_subset _ '\n' h
    have hsp := props.1 '\n' hmem (by decide)
    exact absurd hsp (by decide)
  rcases cleanTranscriptText_form maxChars text with h | ⟨h, _⟩ | ⟨h, _⟩
  · rw [h]
    simp
  · rw [h]
    exact hnl5
  · rw [h]
    intro hm
    rcases List.mem_append.mp hm with h1 | h1
    · exact hnl5 (List.take_subset _ _ h1)
    · exact absurd h1 (by decide)

theorem cleanTranscriptText_pyStrip (text : Str) :
    pyStrip (cleanTranscriptText 120000 text) = cleanTranscriptText 120000 text := by
  rcases cleanTranscriptText_form 120000 text with h | ⟨h, _⟩ | ⟨h, hgt⟩
  · rw [h]
    rfl
  · rw [h]
    exact pyStrip_idem _
  · rw [h]
    apply pyStrip_id
    · intro c r hcr
      have hcore : ∃ c0 r0, pyStrip (collapseWs (subSpeaker (subParens (subBrackets
          (subTimestamps (pyStrip text)))))) = c0 :: r0 := by
        cases hx : pyStrip (collapseWs (subSpeaker (subParens (subBrackets
            (subTimestamps (pyStrip text)))))) with
        | nil =>
          rw [hx] at hgt
          simp at hgt
        | cons a b => exact ⟨a, b, rfl⟩
      obtain ⟨c0, r0, hc0⟩ := hcore
      have htake : (pyStrip (collapseWs (subSpeaker (subParens (subBrackets
          (subTimestamps (pyStrip text))))))).take 120000 = c0 :: r0.take 119999 := by
        rw [hc0, show (120000 : Nat) = 119999 + 1 from rfl, List.take_succ_cons]
      rw [htake, List.cons_append] at hcr
      cases hcr
      exact pyStrip_head_not_space hc0
    · intro c r hcr
      rw [List.reverse_append,
        show truncMarker.reverse = (']' :: "detacnurt tpircsnarT[ ".data) from rfl,
        List.cons_append] at hcr
      cases hcr
      decide

theorem chunkLoop_singleton (mc oc k : Nat) (p : Str) (hp : pyStrip p = p) (hne : p ≠ []) :
    chunkLoop mc oc k [p] [] [] =
      if p.length ≤ mc then (if 0 < k then [p] else [])
      else if k ≤ 1 then [pyStrip (p.take mc)]
      else if pyStrip (pySliceFrom ((mc : Int) - (oc : Int)) p) = [] then
        [pyStrip (p.take mc)]
      else [pyStrip (p.take mc), pyStrip (pySliceFrom ((mc : Int) - (oc : Int)) p)] := by
  have h0 : ¬(([] : Str) ≠ []) := fun h => h rfl
  simp only [chunkLoop, if_neg h0]
  by_cases hle : p.length ≤ mc
  · rw [if_pos hle, if_pos hle]
    by_cases hk0 : 0 < k
    · rw [if_pos hk0]
      simp [chunkLoop, hne, hp, hk0]
    · rw [if_neg hk0]
      simp [chunkLoop, hk0]
  · rw [if_neg hle, if_neg hle]
    by_cases hk1 : k ≤ 1
    · rw [if_pos hk1]
      have hge : ([] ++ [pyStrip (p.take mc)] : List Str).length ≥ k := by
        simp only [List.nil_append, List.length_cons, List.length_nil]
        omega
      rw [if_pos hge]
      simp
    · rw [if_neg hk1]
      have hnge : ¬(([] ++ [pyStrip (p.take mc)] : List Str).length ≥ k) := by
        simp only [List.nil_append, List.length_cons, List.length_nil]
        omega
      rw [if_neg hnge]
      have hlt : ([] ++ [pyStrip (p.take mc)] : List Str).length < k := by
        simp only [List.nil_append, List.length_cons, List.length_nil]
        omega
      have hk2 : 1 < k := by omega
      by_cases hc2 : pyStrip (pySliceFrom ((mc : Int) - (oc : Int)) p) = []
      · rw [if_pos hc2]
        simp [chunkLoop, hc2]
      · rw [if_neg hc2]
        simp [chunkLoop, hc2, hk2, pyStrip_idem]

theorem splitIntoChunks_eq (mc oc k : Nat) (text : Str) :
    splitIntoChunks mc oc k text =
      (if cleanTranscriptText 120000 text = [] then []
       else if (cleanTranscriptText 120000 text).length ≤ mc then
         (if 0 < k then [cleanTranscriptText 120000 text] else [])
       else if k ≤ 1 then
         [pyStrip ((cleanTranscriptText 120000 text).take mc)].filter (· ≠ [])
       else
         [pyStrip ((cleanTranscriptText 120000 text).take mc),
           pyStrip (pySliceFrom ((mc : Int) - (oc : Int))
             (cleanTranscriptText 120000 text))].filter (· ≠ [])) := by
  by_cases hz : cleanTranscriptText 120000 text = []
  · rw [if_pos hz]
    simp [splitIntoChunks, hz]
  · rw [if_neg hz]
    have hnn := cleanTranscriptText_no_newline 120000 text
    have hsb := splitBlank_no_nl _ hnn
    have hfix := cleanTranscriptText_pyStrip text
    have hpara : (((splitBlank (cleanTranscriptText 120000 text)).map pyStrip).filter
        (· ≠ []) : List Str) = [cleanTranscriptText 120000 text] := by
      rw [hsb]
      simp [hfix, hz]
    simp only [splitIntoChunks, if_neg hz]
    rw [hpara]
    rw [if_neg (show ¬([cleanTranscriptText 120000 text] = ([] : List Str)) by simp)]
    rw [chunkLoop_singleton mc oc k (cleanTranscriptText 120000 text) hfix hz]
    by_cases hle : (cleanTranscriptText 120000 text).length ≤ mc
    · rw [if_pos hle, if_pos hle]
      by_cases hk0 : 0 < k
      · rw [if_pos hk0]
        simp [hz]
      · rw [if_neg hk0]
        rfl
    · rw [if_neg hle, if_neg hle]
      by_cases hk1 : k ≤ 1
      · rw [if_pos hk1, if_pos hk1]
      · rw [if_neg hk1, if_neg hk1]
        by_cases hc2 : pyStrip (pySliceFrom ((mc : Int) - (oc : Int))
            (cleanTranscriptText 120000 text)) = []
        · rw [if_pos hc2]
          simp [hc2, List.filter_cons, List.filter_nil]
        · rw [if_neg hc2]


/-- Counterexample to C4 as stated: on the transcript `"ab cd"` with
`max_chars = 3`, `overlap_chars = 1` the two returned chunks are
`"ab"` and `"cd"`: the space of the normalized source sits in neither
chunk, so no concatenation of chunk portions can reconstruct the
normalized source; and with `max_chunks = 0` one chunk is still
returned, violating the `≤ max_chunks` bound. -/
theorem c4_counterexample :
    splitIntoChunks 3 1 12 c4Text = ["ab".data, "cd".data]
    ∧ cleanTranscriptText 120000 c4Text = c4Text
    ∧ ' ' ∈ cleanTranscriptText 120000 c4Text
    ∧ (∀ chunk ∈ splitIntoChunks 3 1 12 c4Text, ' ' ∉ chunk)
    ∧ ((splitIntoChunks 3 1 12 c4Text).flatten).length
        < (cleanTranscriptText 120000 c4Text).length
    ∧ (splitIntoChunks 3 1 0 c4Text).length = 1 := by
  decide

/-- C4 (amended): for every text and parameters with `max_chunks ≥ 1`,
`split_into_chunks` returns at most `max_chunks` chunks, no chunk is
empty or whitespace-only (every chunk contains a non-whitespace
character), and the chunks preserve the original transcript order:
because the cleaned text contains no newline, the blank-line split always
yields the whole cleaned text as the single paragraph, and the result is
exactly `[]`, the whole cleaned text, or the stripped prefix
`cleaned[:max_chars]` followed by the stripped suffix slice
`cleaned[max_chars - overlap_chars:]`, in that order. The reconstruction
property of the original claim fails because boundary whitespace is
stripped from the chunks, and the `max_chunks` bound itself fails for
`max_chunks = 0`. -/
theorem c4_split_into_chunks_amended (mc oc k : Nat) (text : Str) (hk : 1 ≤ k) :
    (splitIntoChunks mc oc k text).length ≤ k
    ∧ (∀ chunk ∈ splitIntoChunks mc oc k text,
        chunk ≠ [] ∧ ∃ c ∈ chunk, isPySpace c = false)
    ∧ splitIntoChunks mc oc k text =
        (if cleanTranscriptText 120000 text = [] then []
         else if (cleanTranscriptText 120000 text).length ≤ mc then
           [cleanTranscriptText 120000 text]
         else if k ≤ 1 then
           [pyStrip ((cleanTranscriptText 120000 text).take mc)].filter (· ≠ [])
         else
           [pyStrip ((cleanTranscriptText 120000 text).take mc),
             pyStrip (pySliceFrom ((mc : Int) - (oc : Int))
               (cleanTranscriptText 120000 text))].filter (· ≠ [])) := by
  refine ⟨?_, ?_, ?_⟩
  · simp only [splitIntoChunks]
    split
    · simp
    · calc (List.filter (fun c => decide (c ≠ [])) _).length
          ≤ (chunkLoop mc oc k _ [] []).length := List.length_filter_le _ _
        _ ≤ k := chunkLoop_length_le mc oc k _ [] [] (by simp only [List.length_nil]; omega)
  · intro chunk hchunk
    simp only [splitIntoChunks] at hchunk
    split at hchunk
    · exact absurd hchunk (List.not_mem_nil _)
    · have h1 := List.of_mem_filter hchunk
      have h2 := List.mem_of_mem_filter hchunk
      rcases chunkLoop_mem mc oc k _ [] [] chunk h2 with h | ⟨y, hy⟩
      · exact absurd h (List.not_mem_nil _)
      · have hne : chunk ≠ [] := of_decide_eq_true h1
        obtain ⟨c, r, hcr⟩ := List.exists_cons_of_ne_nil hne
        refine ⟨hne, c, by rw [hcr]; exact List.mem_cons_self _ _, ?_⟩
        exact pyStrip_head_not_space (hy ▸ hcr : pyStrip y = c :: r)
  · rw [splitIntoChunks_eq mc oc k text]
    by_cases hz : cleanTranscriptText 120000 text = []
    · rw [if_pos hz, if_pos hz]
    · rw [if_neg hz, if_neg hz]
      by_cases hle : (cleanTranscriptText 120000 text).length ≤ mc
      · rw [if_pos hle, if_pos hle, if_pos (show 0 < k by omega)]
      · rw [if_neg hle, if_neg hle]

/-- Witness for C4 (amended) at the concrete transcript `"ab cd"`. -/
theorem c4_split_into_chunks_amended_witness :
    1 ≤ 12
    ∧ ((splitIntoChunks 3 1 12 c4Text).length ≤ 12
      ∧ ∀ chunk ∈ splitIntoChunks 3 1 12 c4Text,
          chunk ≠ [] ∧ ∃ c ∈ chunk, isPySpace c = false) :=
  ⟨by decide, (c4_split_into_chunks_amended 3 1 12 c4Text (by decide)).1,
    (c4_split_into_chunks_amended 3 1 12 c4Text (by decide)).2.1⟩

theorem cutAtLastSpace_length_le (l : Str) : (cutAtLastSpace l).length ≤ l.length := by
  unfold cutAtLastSpace
  split
  · rw [List.length_reverse, List.length_drop]
    obtain ⟨s, hs⟩ := exists_suffix_dropWhile (fun c => decide (c ≠ ' ')) l.reverse
    have h := congrArg List.length hs
    rw [List.length_append, List.length_reverse] at h
    omega
  · exact Nat.le_refl _

theorem shorten_length_le (m : Nat) (t : Str) : (shorten m t).length ≤ m + 3 := by
  simp only [shorten]
  split
  · omega
  · rw [List.length_append]
    have h1 := cutAtLastSpace_length_le ((pyStrip (collapseWs t)).take m)
    have h2 : ((pyStrip (collapseWs t)).take m).length ≤ m := by
      rw [List.length_take]
      omega
    simp only [List.length_cons, List.length_nil]
    omega

theorem dedupeStringsGo_spec (l : List Str) :
    ∀ seen : List Str,
      (∀ v ∈ dedupeStringsGo seen l, lowerStr v ∉ seen)
      ∧ (dedupeStringsGo seen l).Pairwise (fun a b => lowerStr a ≠ lowerStr b) := by
  induction l with
  | nil =>
    intro seen
    exact ⟨by simp [dedupeStringsGo], by simp [dedupeStringsGo]⟩
  | cons x xs ih =>
    intro seen
    simp only [dedupeStringsGo]
    by_cases hv : pyStrip (collapseWs x) = []
    · rw [if_pos hv]
      exact ih seen
    · rw [if_neg hv]
      by_cases hk : lowerStr (pyStrip (collapseWs x)) ∈ seen
      · rw [if_pos hk]
        exact ih seen
      · rw [if_neg hk]
        constructor
        · intro v hv2
          rcases List.mem_cons.mp hv2 with rfl | hmem
          · exact hk
          · have hni := (ih (lowerStr (pyStrip (collapseWs x)) :: seen)).1 v hmem
            exact fun hc => hni (List.mem_cons_of_mem _ hc)
        · rw [List.pairwise_cons]
          constructor
          · intro w hw he
            have hni := (ih (lowerStr (pyStrip (collapseWs x)) :: seen)).1 w hw
            exact hni (List.mem_cons.mpr (Or.inl he.symm))
          · exact (ih _).2

theorem dedupeStrings_pairwise (items : List Str) :
    (dedupeStrings items).Pairwise (fun a b => lowerStr a ≠ lowerStr b) :=
  (dedupeStringsGo_spec items []).2

theorem dedupeStringsGo_length_le (l : List Str) :
    ∀ seen, (dedupeStringsGo seen l).length ≤ l.length := by
  induction l with
  | nil =>
    intro seen
    simp [dedupeStringsGo]
  | cons x xs ih =>
    intro seen
    simp only [dedupeStringsGo]
    split
    · exact Nat.le_trans (ih seen) (by simp)
    · split
      · exact Nat.le_trans (ih seen) (by simp)
      · simp only [List.length_cons]
        exact Nat.succ_le_succ (ih _)

theorem dedupeStrings_length_le (items : List Str) :
    (dedupeStrings items).length ≤ items.length :=
  dedupeStringsGo_length_le items []

theorem ensureItemRange_length (label : Str) (mi ma : Nat) (items : List Str) (h : mi ≤ ma) :
    mi ≤ (ensureItemRange label mi ma items).length
    ∧ (ensureItemRange label mi ma items).length ≤ ma := by
  simp only [ensureItemRange, List.length_append, List.length_map, List.length_range,
    List.length_take]
  omega

theorem ensureItemRange_mem (label : Str) (mi ma : Nat) (items : List Str) :
    ∀ x ∈ ensureItemRange label mi ma items,
      (∃ y ∈ dedupeStrings items, (pyStrip y).length > 8 ∧ x = shorten 180 y)
      ∨ ∃ j, j < mi ∧ x = fillerItem label j := by
  intro x hx
  simp only [ensureItemRange, List.mem_append] at hx
  rcases hx with hx | hx
  · left
    have hx2 := List.mem_of_mem_take hx
    obtain ⟨y, hy, rfl⟩ := List.mem_map.mp hx2
    obtain ⟨hy1, hy2⟩ := List.mem_filter.mp hy
    exact ⟨y, hy1, by simpa using hy2, rfl⟩
  · right
    obtain ⟨j, hj, rfl⟩ := List.mem_map.mp hx
    rw [List.mem_range] at hj
    refine ⟨_, ?_, rfl⟩
    omega

theorem fillerItem_length (label : Str) (j : Nat) (hl : label.length ≤ 14) (hj : j < 4) :
    (fillerItem label j).length ≤ 183 := by
  have h1 : (natToStr (j + 1)).length = 1 := by interval_cases j <;> rfl
  have h2 : (": Revise this idea and connect it to the lecture theme.".data).length = 55 := rfl
  simp only [fillerItem, List.length_append, List.length_cons, List.length_nil, h1, h2]
  omega

theorem ensureItemRange_spec (label : Str) (items : List Str) (hl : label.length ≤ 14) :
    (4 ≤ (ensureItemRange label 4 8 items).length ∧ (ensureItemRange label 4 8 items).length ≤ 8)
    ∧ ∀ x ∈ ensureItemRange label 4 8 items,
        x.length ≤ 183
        ∧ ((∃ y ∈ dedupeStrings items, (pyStrip y).length > 8 ∧ x = shorten 180 y)
          ∨ ∃ j, j < 4 ∧ x = fillerItem label j) := by
  refine ⟨ensureItemRange_length label 4 8 items (by omega), ?_⟩
  intro x hx
  have hm := ensureItemRange_mem label 4 8 items x hx
  refine ⟨?_, hm⟩
  rcases hm with ⟨y, _, _, rfl⟩ | ⟨j, hj, rfl⟩
  · have := shorten_length_le 180 y
    omega
  · exact fillerItem_length label j hl hj

theorem buildThreeParagraphOverview_length (src : Str) (concepts : List Str) :
    (buildThreeParagraphOverview src concepts).length = 3 := by
  simp only [buildThreeParagraphOverview]
  split
  · rfl
  · rw [List.length_take, List.length_append, List.length_map, List.length_range]
    omega

theorem appendNonDups_le_three (gen : List Str) :
    ∀ ov : List Str, ov.length ≤ 3 → (appendNonDups ov gen).length ≤ 3 := by
  induction gen with
  | nil =>
    intro ov h
    exact h
  | cons p ps ih =>
    intro ov h
    simp only [appendNonDups]
    split
    · exact h
    · split
      · exact ih ov h
      · refine ih _ ?_
        rw [List.length_append]
        simp only [List.length_cons, List.length_nil]
        omega

theorem appendNonDups_pairwise (gen : List Str) :
    ∀ ov : List Str, ov.Pairwise (fun a b => lowerStr a ≠ lowerStr b) →
      (appendNonDups ov gen).Pairwise (fun a b => lowerStr a ≠ lowerStr b) := by
  induction gen with
  | nil =>
    intro ov h
    exact h
  | cons p ps ih =>
    intro ov h
    simp only [appendNonDups]
    split
    · exact h
    · split
      · exact ih ov h
      · refine ih _ ?_
        rw [List.pairwise_append]
        refine ⟨h, List.pairwise_singleton _ _, ?_⟩
        intro a ha b hb
        rw [List.mem_singleton] at hb
        subst hb
        rename_i hdup
        intro he
        exact hdup (List.mem_map.mpr ⟨a, ha, he⟩)

theorem overviewFill_props (src : Str) (cc : List Str) :
    ∀ (fuel : Nat) (ov out : List Str), ov.length ≤ 3 →
      ov.Pairwise (fun a b => lowerStr a ≠ lowerStr b) →
      overviewFill src cc fuel ov = some out →
      out.length = 3 ∧ out.Pairwise (fun a b => lowerStr a ≠ lowerStr b) := by
  intro fuel
  induction fuel with
  | zero =>
    intro ov out hlen hpw h
    simp only [overviewFill] at h
    split at h
    · rw [Option.some.injEq] at h
      subst h
      rename_i hge
      exact ⟨by omega, hpw⟩
    · exact Option.noConfusion h
  | succ n ih =>
    intro ov out hlen hpw h
    simp only [overviewFill] at h
    split at h
    · rw [Option.some.injEq] at h
      subst h
      rename_i hge
      exact ⟨by omega, hpw⟩
    · exact ih _ out (appendNonDups_le_three _ ov hlen) (appendNonDups_pairwise _ ov hpw) h

/-- Counterexample to C1 as stated: two 200-character key definitions that
differ only after position 180 both truncate to the same 183-character
string, so the validated field contains two identical (hence
case-insensitively equal) items, each longer than 180 characters. -/
theorem c1_counterexample :
    (validateStructuredSummary 1 c1Summary []).isSome = true
    ∧ ¬ ((validateStructuredSummary 1 c1Summary []).getD default).key_definitions.Nodup
    ∧ (((validateStructuredSummary 1 c1Summary []).getD default).key_definitions.getD 0 []).length
        = 183 := by
  decide

/-- C1 (amended): whenever the overview repair loop terminates (`fuel`
suffices), the validated summary has exactly 3 overview paragraphs which
are pairwise case-insensitively distinct; each of the four bulleted
fields has between 4 and 8 items; every item is at most 183 characters
(180 plus the appended `"..."`); and every item is either the
180-truncation of a deduplicated input item whose stripped length
exceeds 8, or a generic filler labeled by the field name and an index
below 4. Bulleted-field items need not be pairwise distinct, since
truncation and filler synthesis can create duplicates. -/
theorem c1_validate_structured_summary_amended (fuel : Nat) (s : StructuredSummaryL)
    (src : Str) (out : StructuredSummaryL)
    (h : validateStructuredSummary fuel s src = some out) :
    out.overview_paragraphs.length = 3
    ∧ out.overview_paragraphs.Pairwise (fun a b => lowerStr a ≠ lowerStr b)
    ∧ ∀ fs ∈ [(out.key_definitions, "Definition".data, s.key_definitions),
        (out.core_concepts, "Concept".data, s.core_concepts),
        (out.important_examples, "Example".data, s.important_examples),
        (out.exam_revision_points, "Revision Point".data, s.exam_revision_points)],
      (4 ≤ fs.1.length ∧ fs.1.length ≤ 8)
      ∧ ∀ x ∈ fs.1,
          x.length ≤ 183
          ∧ ((∃ y ∈ dedupeStrings fs.2.2, (pyStrip y).length > 8 ∧ x = shorten 180 y)
            ∨ ∃ j, j < 4 ∧ x = fillerItem fs.2.1 j) := by
  simp only [validateStructuredSummary] at h
  rw [Option.map_eq_some'] at h
  obtain ⟨ov, hov, hout⟩ := h
  subst hout
  have hov1len : (if ((dedupeStrings s.overview_paragraphs).take 3).length < 3 then
      buildThreeParagraphOverview src (ensureItemRange "Concept".data 4 8 s.core_concepts)
      else (dedupeStrings s.overview_paragraphs).take 3).length ≤ 3 := by
    split
    · rw [buildThreeParagraphOverview_length]
    · rw [List.length_take]
      omega
  have hfill := overviewFill_props src _ fuel _ ov
    (Nat.le_trans (dedupeStrings_length_le _) hov1len) (dedupeStrings_pairwise _) hov
  refine ⟨hfill.1, hfill.2, ?_⟩
  intro fs hfs
  have hd : ("Definition".data).length ≤ 14 := by decide
  have hc : ("Concept".data).length ≤ 14 := by decide
  have he : ("Example".data).length ≤ 14 := by decide
  have hr : ("Revision Point".data).length ≤ 14 := by decide
  fin_cases hfs
  · exact ensureItemRange_spec "Definition".data s.key_definitions hd
  · exact ensureItemRange_spec "Concept".data s.core_concepts hc
  · exact ensureItemRange_spec "Example".data s.important_examples he
  · exact ensureItemRange_spec "Revision Point".data s.exam_revision_points hr

/-- Witness for C1 (amended) at the empty candidate summary with empty
source and fuel 1. -/
theorem c1_validate_structured_summary_amended_witness :
    validateStructuredSummary 1 emptySummary []
        = some ((validateStructuredSummary 1 emptySummary []).getD default)
    ∧ ((validateStructuredSummary 1 emptySummary []).getD default).overview_paragraphs.length
        = 3 :=
  ⟨rfl, (c1_validate_structured_summary_amended 1 emptySummary []
      ((validateStructuredSummary 1 emptySummary []).getD default) rfl).1⟩

theorem chunkNotesLoop_all_nonobj (oracle : Oracle)
    (hchunk : ∀ t i n, oracle (.chunkP t i n) = .ok .nonobj) (total : Nat) :
    ∀ ps : List (Nat × Str), chunkNotesLoop oracle total ps
      = (ps.map (fun p => PTag.chunkP p.2 p.1 total), Except.ok []) := by
  intro ps
  induction ps with
  | nil => rfl
  | cons p rest ih =>
    obtain ⟨i, chunk⟩ := p
    simp only [chunkNotesLoop, hchunk chunk i total, ih, List.map_cons]

/-- Counterexample to C8 as stated: under an oracle whose every chunk
response parses as JSON but not as an object, the Local-network adapter
issues the reduce prompt over an empty note list and never issues a
single-shot summarize prompt — the claimed all-chunks-failed fallback
exists only in the Cloud adapter — while still completing the protocol. -/
theorem c8_counterexample :
    PTag.reduceP [] ∈ (ollamaSummarize c8Oracle 1 c8Transcript).1
    ∧ ((ollamaSummarize c8Oracle 1 c8Transcript).1.all (fun t => !isSingleTag t)) = true
    ∧ exceptIsOk (ollamaSummarize c8Oracle 1 c8Transcript).2 = true := by
  decide

/-- C8 (amended): chunk responses that fail to parse as JSON objects are
silently dropped by both adapters (the chunk loop succeeds with an empty
note list rather than failing); when all chunks fail this way, the Cloud
adapter falls back to a single-shot summarize call on the full cleaned
transcript and its outcome is determined by that call, but the
Local-network adapter instead proceeds to the reduce stage with an empty
note list and never issues a single-shot call. -/
theorem c8_multi_pass_amended (oracle : Oracle) (transcript : Str) (fuel : Nat)
    (hchunk : ∀ t i n, oracle (.chunkP t i n) = .ok .nonobj)
    (hg : splitIntoChunks 2500 240 10 (cleanTranscriptText 120000 transcript) ≠ [])
    (ho : splitIntoChunks 2400 200 8 (cleanTranscriptText 120000 transcript) ≠ []) :
    (∀ total ps, (chunkNotesLoop oracle total ps).2 = Except.ok [])
    ∧ PTag.singleP (cleanTranscriptText 120000 transcript)
        ∈ (geminiMultiPassSummary oracle transcript).1
    ∧ (geminiMultiPassSummary oracle transcript).2 =
        (match oracle (.singleP (cleanTranscriptText 120000 transcript)) with
          | .error e => .error e
          | .ok (.obj d) => .ok d
          | .ok .nonobj => .ok emptyDict)
    ∧ PTag.reduceP [] ∈ (ollamaSummarize oracle fuel transcript).1
    ∧ ∀ tag ∈ (ollamaSummarize oracle fuel transcript).1, isSingleTag tag = false := by
  have hloop := chunkNotesLoop_all_nonobj oracle hchunk
  have hgem : (geminiMultiPassSummary oracle transcript).1
      = (((splitIntoChunks 2500 240 10 (cleanTranscriptText 120000 transcript)).enumFrom 1).map
          (fun p => PTag.chunkP p.2 p.1
            (splitIntoChunks 2500 240 10 (cleanTranscriptText 120000 transcript)).length))
        ++ [PTag.singleP (cleanTranscriptText 120000 transcript)]
      ∧ (geminiMultiPassSummary oracle transcript).2 =
        (match oracle (.singleP (cleanTranscriptText 120000 transcript)) with
          | .error e => .error e
          | .ok (.obj d) => .ok d
          | .ok .nonobj => .ok emptyDict) := by
    rcases hs : oracle (.singleP (cleanTranscriptText 120000 transcript)) with e | j
    · constructor <;> simp [geminiMultiPassSummary, hg, hloop, hs]
    · cases j <;> constructor <;> simp [geminiMultiPassSummary, hg, hloop, hs]
  have hbase : ∀ tag ∈ ((splitIntoChunks 2400 200 8
        (cleanTranscriptText 120000 transcript)).enumFrom 1).map
        (fun p => PTag.chunkP p.2 p.1
          (splitIntoChunks 2400 200 8 (cleanTranscriptText 120000 transcript)).length),
      isSingleTag tag = false := by
    intro tag htag
    obtain ⟨p, _, rfl⟩ := List.mem_map.mp htag
    rfl
  have key : ∃ rest, (ollamaSummarize oracle fuel transcript).1
      = (((splitIntoChunks 2400 200 8 (cleanTranscriptText 120000 transcript)).enumFrom 1).map
          (fun p => PTag.chunkP p.2 p.1
            (splitIntoChunks 2400 200 8 (cleanTranscriptText 120000 transcript)).length))
        ++ (PTag.reduceP [] :: rest)
      ∧ ∀ tag ∈ rest, isSingleTag tag = false := by
    rcases hr : oracle (.reduceP []) with e | jr
    · refine ⟨[], ?_, by simp⟩
      simp [ollamaSummarize, ho, hloop, hr]
    · cases jr with
      | obj d =>
        rcases hsy : oracle (.synthP d (cleanTranscriptText 120000 transcript)) with e2 | js
        · refine ⟨[PTag.synthP d (cleanTranscriptText 120000 transcript)], ?_, ?_⟩
          · simp [ollamaSummarize, ho, hloop, hr, hsy]
          · intro t ht
            rw [List.mem_singleton] at ht
            subst ht
            rfl
        · cases js with
          | obj d2 =>
            rcases hv : oracle (.validateP d2 d) with e3 | jv <;>
              refine ⟨[PTag.synthP d (cleanTranscriptText 120000 transcript),
                PTag.validateP d2 d], ?_, by simp [isSingleTag]⟩ <;>
              simp [ollamaSummarize, ho, hloop, hr, hsy, hv]
          | nonobj =>
            rcases hv : oracle (.validateP d d) with e3 | jv <;>
              refine ⟨[PTag.synthP d (cleanTranscriptText 120000 transcript),
                PTag.validateP d d], ?_, by simp [isSingleTag]⟩ <;>
              simp [ollamaSummarize, ho, hloop, hr, hsy, hv]
      | nonobj =>
        rcases hsy : oracle (.synthP emptyDict (cleanTranscriptText 120000 transcript))
            with e2 | js
        · refine ⟨[PTag.synthP emptyDict (cleanTranscriptText 120000 transcript)], ?_, ?_⟩
          · simp [ollamaSummarize, ho, hloop, hr, hsy]
          · intro t ht
            rw [List.mem_singleton] at ht
            subst ht
            rfl
        · cases js with
          | obj d2 =>
            rcases hv : oracle (.validateP d2 emptyDict) with e3 | jv <;>
              refine ⟨[PTag.synthP emptyDict (cleanTranscriptText 120000 transcript),
                PTag.validateP d2 emptyDict], ?_, by simp [isSingleTag]⟩ <;>
              simp [ollamaSummarize, ho, hloop, hr, hsy, hv]
          | nonobj =>
            rcases hv : oracle (.validateP emptyDict emptyDict) with e3 | jv <;>
              refine ⟨[PTag.synthP emptyDict (cleanTranscriptText 120000 transcript),
                PTag.validateP emptyDict emptyDict], ?_, by simp [isSingleTag]⟩ <;>
              simp [ollamaSummarize, ho, hloop, hr, hsy, hv]
  obtain ⟨rest, htr, hrest⟩ := key
  refine ⟨fun total ps => by rw [hloop total ps], ?_, hgem.2, ?_, ?_⟩
  · rw [hgem.1]
    exact List.mem_append.mpr (Or.inr (List.mem_singleton.mpr rfl))
  · rw [htr]
    exact List.mem_append.mpr (Or.inr (List.mem_cons_self _ _))
  · intro tag htag
    rw [htr] at htag
    rcases List.mem_append.mp htag with h | h
    · exact hbase tag h
    · rcases List.mem_cons.mp h with rfl | h2
      · rfl
      · exact hrest tag h2

/-- Witness for C8 (amended) at the all-chunks-non-object oracle and a
short concrete transcript. -/
theorem c8_multi_pass_amended_witness :
    ((∀ t i n, c8Oracle (.chunkP t i n) = .ok .nonobj)
      ∧ splitIntoChunks 2500 240 10 (cleanTranscriptText 120000 c8Transcript) ≠ []
      ∧ splitIntoChunks 2400 200 8 (cleanTranscriptText 120000 c8Transcript) ≠ [])
    ∧ PTag.singleP (cleanTranscriptText 120000 c8Transcript)
        ∈ (geminiMultiPassSummary c8Oracle c8Transcript).1
    ∧ PTag.reduceP [] ∈ (ollamaSummarize c8Oracle 1 c8Transcript).1 :=
  ⟨⟨fun t i n => rfl, by decide, by decide⟩,
    (c8_multi_pass_amended c8Oracle c8Transcript 1 (fun t i n => rfl)
      (by decide) (by decide)).2.1,
    (c8_multi_pass_amended c8Oracle c8Transcript 1 (fun t i n => rfl)
      (by decide) (by decide)).2.2.2.1⟩
